import Mathlib

/-!
Verification of the CatalyST-NGD-Wrappers request-composition and
result-aggregation pipeline (src/Azure/NGD_API_Wrappers.py, with the
src/app_flask variant where a claim cites it).

The Python code passes JSON-like dicts between a single-request fetcher and a
stack of wrapper coordinators (pagination, geometry fan-out, collection
fan-out, OAuth2).  The embedding models those dicts as association lists over a
small value type `GVal` covering every value shape the wrapper logic reads or
writes: strings, integers, feature lists, link-relation lists, string-keyed
string maps and null.  Upstream HTTP calls are modelled as function parameters
(the inner callable each wrapper receives), exactly as the decorators receive
them in the source.  Uncaught Python exceptions (AttributeError, TypeError,
KeyError, IndexError) are modelled as explicit `raised`/`none` outcomes,
distinct from returned dicts.
-/

set_option maxRecDepth 100000

namespace NGD

/-- The searchAreaNumber value a feature carries under geometry fan-out:
the source stores either a single part index or, after a cross-part id
collision, a list of part indices. -/
inductive SAN where
  | one : Int → SAN
  | many : List Int → SAN
deriving DecidableEq, Repr

/-- One GeoJSON feature, as far as the wrapper logic touches it: its upstream
id (the identity key used for de-duplication), its top-level
searchAreaNumber, and the searchAreaNumber copy the source writes into the
feature properties sub-dict.  All other feature content is irrelevant to
every coordinator and is not modelled. -/
structure Feature where
  id : Nat
  searchAreaNumber : Option SAN := none
  propertiesSearchAreaNumber : Option SAN := none
deriving DecidableEq, Repr

/-- The JSON-ish values the wrapper layer reads and writes in response and
query-parameter dicts.  `links` models the links array by the list of its
rel fields (the only part of a link object the source reads);
`strMap` models a string-keyed dict of strings (the version-resolver
output). -/
inductive GVal where
  | s : String → GVal
  | i : Int → GVal
  | feats : List Feature → GVal
  | links : List String → GVal
  | strMap : List (String × String) → GVal
  | nullv : GVal
deriving DecidableEq, Repr

/-- A Python dict, as an insertion-ordered association list with unique keys. -/
abbrev Dict := List (String × GVal)

/-- Python d.get(k): the value at the key, None when absent. -/
def dget (d : Dict) (k : String) : Option GVal :=
  (d.find? (fun p => p.1 = k)).map (·.2)

/-- Python d[k] = v: overwrite in place when the key exists, else append
(Python dicts preserve insertion order). -/
def dset (d : Dict) (k : String) (v : GVal) : Dict :=
  if (d.find? (fun p => p.1 = k)).isSome then
    d.map (fun p => if p.1 = k then (k, v) else p)
  else
    d ++ [(k, v)]

/-- Python d.pop(k, None): the value (if any) and the dict without the key. -/
def dpop (d : Dict) (k : String) : Option GVal × Dict :=
  (dget d k, d.filter (fun p => p.1 ≠ k))

/-- The keys of a dict, in order. -/
def dkeys (d : Dict) : List String := d.map (·.1)

/-- Python truthiness for the modelled values (bool(v)). -/
def truthy : GVal → Bool
  | .s v => v ≠ ""
  | .i v => v ≠ 0
  | .feats v => v ≠ []
  | .links v => v ≠ []
  | .strMap v => v ≠ []
  | .nullv => false

/-- Outcome of the guard `json_response.get('code') and json_response['code'] >= 400`
used by limit_extension and multigeometry_search_extension: `pass_` when the
guard is falsy, `err` when the response is treated as an error payload, and
`crash` when Python would raise TypeError (a truthy non-integer code compared
with an int). -/
inductive CodeCheck where
  | pass_ : CodeCheck
  | err : CodeCheck
  | crash : CodeCheck
deriving DecidableEq, Repr

def errCheck (d : Dict) : CodeCheck :=
  match dget d "code" with
  | none => .pass_
  | some (.i c) => if c = 0 then .pass_ else if 400 ≤ c then .err else .pass_
  | some v => if truthy v then .crash else .pass_

/-! ### limit_extension (src/Azure/NGD_API_Wrappers.py, lines 333-413)

The pagination coordinator.  `inner` is the wrapped callable; the model
records the query-parameter dict passed to each inner call (the trace), so
request counts and per-request parameters are observable.  The while loop is
given fuel (the source loop can iterate unboundedly when request_limit is
None); exhaustion is the distinguished `fuelOut` outcome. -/

/-- Result of a limit_extension call: a returned dict, an uncaught Python
exception, or fuel exhaustion (embedding artifact for the unbounded loop). -/
inductive LimitRes where
  | ret : Dict → LimitRes
  | raised : String → LimitRes
  | fuelOut : LimitRes
deriving DecidableEq, Repr

/-- The geojson dict literal built after the loop (datetime.now() is the
`now` parameter; `collection` is kwargs.get('collection')). -/
def mkGeojson (request_count : Int) (features : List Feature)
    (collection : Option String) (now : String) : Dict :=
  [("type", .s "FeatureCollection"),
   ("numberOfRequests", .i request_count),
   ("numberReturned", .i (features.length : Int)),
   ("timeStamp", .s now),
   ("collection", match collection with | some c => .s c | none => .nullv),
   ("features", .feats features)]

/-- The 400 dict returned when the caller supplies offset. -/
def offsetErrorDict : Dict :=
  [("code", .i 400),
   ("description", .s "'offset' is not a valid attribute for functions using this Catalyst wrapper."),
   ("errorSource", .s "Catalyst Wrapper")]

/-- The AttributeError message raised when limit and request_limit are both
falsy. -/
def limitAttributeError : String :=
  "At least one of limit or request_limit must be provided to prevent indefinitely numerous requests and high costs. However, there is no upper limit to these values."

/-- Python truthiness of an optional int argument (None and 0 are falsy). -/
def truthyInt : Option Int → Bool
  | none => false
  | some v => v ≠ 0

/-- The while-loop guard:
`(request_count != request_limit) and (not(limit) or offset < limit)`.
Comparing an int with None in Python is never equal, and `not(limit)`
short-circuits the offset comparison. -/
def limitCond (request_limit limit : Option Int) (request_count offset : Int) : Bool :=
  (match request_limit with
   | some v => request_count ≠ v
   | none => true) &&
  (match limit with
   | some l => if l = 0 then true else offset < l
   | none => true)

/-- The query-parameter mutations at the top of each loop iteration:
`if request_count == batch_count: query_params['limit'] = final_batchsize`
followed by `query_params['offset'] = offset`. -/
def nextQueryParams (batch : Option (Int × Int)) (request_count offset : Int)
    (query_params : Dict) : Dict :=
  let qp1 :=
    match batch with
    | some (batch_count, final_batchsize) =>
      if request_count = batch_count then dset query_params "limit" (.i final_batchsize)
      else query_params
    | none => query_params
  dset qp1 "offset" (.i offset)

/-- The body of the pagination loop.  Returns the trace of query-parameter
dicts passed to the inner callable, and the outcome. -/
def limitLoop (inner : Dict → Dict) (request_limit limit : Option Int)
    (batch : Option (Int × Int)) (collection : Option String) (now : String) :
    Nat → Int → Int → List Feature → Dict → List Dict × LimitRes
  | 0, _, _, _, _ => ([], .fuelOut)
  | fuel + 1, request_count, offset, features, query_params =>
    if limitCond request_limit limit request_count offset then
      let qp2 := nextQueryParams batch request_count offset query_params
      let json_response := inner qp2
      match errCheck json_response with
      | .crash => ([qp2], .raised "TypeError")
      | .err => ([qp2], .ret json_response)
      | .pass_ =>
        match dget json_response "features" with
        | some (.feats fs) =>
          match dget json_response "links" with
          | some (.links rels) =>
            if rels.contains "next" then
              let (tr, res) :=
                limitLoop inner request_limit limit batch collection now
                  fuel (request_count + 1) (offset + 100) (features ++ fs) qp2
              (qp2 :: tr, res)
            else
              -- no rel == "next" link: break, then build the geojson
              ([qp2], .ret (mkGeojson (request_count + 1) (features ++ fs) collection now))
          | _ => ([qp2], .raised "TypeError")
        | _ => ([qp2], .raised "KeyError")
    else
      ([], .ret (mkGeojson request_count features collection now))

/-- limit_extension.wrapper.  `query_params` is the caller dict (None
modelled as none); the source copies it before mutating.  request_limit
defaults to 50 at the call sites; both argument defaults are supplied by
callers of this model. -/
def limit_extension (inner : Dict → Dict) (request_limit limit : Option Int)
    (query_params : Option Dict) (collection : Option String) (now : String)
    (fuel : Nat) : List Dict × LimitRes :=
  -- query_params = query_params.copy() if query_params else {}
  let qp := match query_params with
    | some d => if d ≠ [] then d else []
    | none => []
  if "offset" ∈ dkeys qp then
    ([], .ret offsetErrorDict)
  else
    -- divmod(limit, 100) if limit else (None, None)
    let batch : Option (Int × Int) :=
      match limit with
      | some l => if l ≠ 0 then some (l.ediv 100, l.emod 100) else none
      | none => none
    if ¬ truthyInt limit ∧ ¬ truthyInt request_limit then
      ([], .raised limitAttributeError)
    else
      limitLoop inner request_limit limit batch collection now fuel 0 0 [] qp

/-! ### The C1 scenario: an upstream holding 250 features in pages of 100

The claims C1 upstream: each request returns min(limit, 100) features starting
at the requested offset, with a rel="next" link exactly while features remain
past the returned page. -/

/-- The hypothetical upstream of claim C1: 250 features total, pages capped at
100, a next link while more remain.  Features are identified by their index. -/
def c1Upstream (total : Nat) (qp : Dict) : Dict :=
  let o : Nat := match dget qp "offset" with
    | some (.i v) => v.toNat
    | _ => 0
  let lim : Nat := match dget qp "limit" with
    | some (.i v) => min v.toNat 100
    | _ => 100
  let cnt := min lim (total - o)
  [("numberReturned", .i (cnt : Int)),
   ("features", .feats ((List.range' o cnt).map (fun k => { id := k }))),
   ("links", .links (if o + cnt < total then ["self", "next"] else ["self"]))]

/-- The C1 run: limit=250 against the 250-feature upstream, default
request_limit 50. -/
def c1Run : List Dict × LimitRes :=
  limit_extension (c1Upstream 250) (some 50) (some 250) none none "t0" 10

/-- The dict the C1 run returned. -/
def c1Result : Dict :=
  match c1Run.2 with
  | .ret d => d
  | _ => []

/-- The length of the features list of a returned dict. -/
def featsLen (d : Dict) : Nat :=
  match dget d "features" with
  | some (.feats fs) => fs.length
  | _ => 0

/-! ### multigeometry_search_extension (src/Azure/NGD_API_Wrappers.py, lines 415-536)

The geometry fan-out coordinator.  Geometry objects are modelled by the only
structure the wrapper inspects: atomic (Point/LineString/Polygon, carrying an
opaque tag) versus multi-part (anything exposing .geoms), possibly nested. -/

/-- A shapely geometry as far as multilevel_explode distinguishes:
an atomic shape (tagged so distinct parts are distinguishable) or a
multi-geometry over sub-geometries. -/
inductive Geom where
  | atom : Nat → Geom
  | multi : List Geom → Geom

mutual

/-- multilevel_explode: an atomic shape is its own one-element list; a
multi-geometry is recursively flattened, in order. -/
def multilevel_explode : Geom → List Geom
  | .atom n => [.atom n]
  | .multi gs => explodeParts gs

def explodeParts : List Geom → List Geom
  | [] => []
  | g :: gs => multilevel_explode g ++ explodeParts gs

end

/-- The promotion performed on an id collision:
`n = [n] if not(isinstance(n, list)) else n; n.append(search_area_number)`.
The `none` case cannot be reached from wrapper-produced inputs: every feature
in the accumulator was given a searchAreaNumber when it was added (see the
flatten lemmas). -/
def pushSAN : Option SAN → Int → SAN
  | some (.one a), k => .many [a, k]
  | some (.many l), k => .many (l ++ [k])
  | none, k => .many [k]

/-- The first per-area loop of flatten_search_areas: write the area's
searchAreaNumber onto every feature, top-level and inside properties. -/
def tagFeatures (san : Int) (fs : List Feature) : List Feature :=
  fs.map (fun f => { f with searchAreaNumber := some (.one san),
                            propertiesSearchAreaNumber := some (.one san) })

/-- The second per-area loop of flatten_search_areas: de-duplicate by feature
id against the accumulated output features.  Arguments: features still to
process, the accumulated output features (geojson_fts), the seen-id list, and
this area's new_features.  `none` models the IndexError the source hits when
an id is recorded in ids but its feature is not yet in geojson_fts (a
duplicate id inside a single area). -/
def dedupLoop (san : Int) :
    List Feature → List Feature → List Nat → List Feature →
    Option (List Feature × List Nat × List Feature)
  | [], fts, ids, new => some (fts, ids, new)
  | feat :: rest, fts, ids, new =>
    if feat.id ∈ ids then
      match fts.findIdx? (fun gf => gf.id = feat.id) with
      | some index =>
        match fts[index]? with
        | some gf =>
          dedupLoop san rest
            (fts.set index
              { gf with searchAreaNumber := some (pushSAN gf.searchAreaNumber san) })
            ids new
        | none => none
      | none => none
    else
      dedupLoop san rest fts (ids ++ [feat.id])
        (new ++ [{ feat with searchAreaNumber := some (.one san) }])

/-- The accumulator of flatten_search_areas: the output features list, the
seen-id list, and the two running counters. -/
structure FlatAcc where
  fts : List Feature
  ids : List Nat
  numberOfRequests : Int
  numberReturned : Int

/-- One iteration of the outer area loop of flatten_search_areas.  `none`
models the uncaught exceptions of the source: KeyError when the area lacks
searchAreaNumber, features or numberOfRequests, and the inner IndexError of
dedupLoop.  (A non-integer searchAreaNumber is also mapped to `none`; the
wrapper always stores the integer part index there.) -/
def flattenArea (acc : FlatAcc) (area : Dict) : Option FlatAcc :=
  match (dpop area "searchAreaNumber").1 with
  | some (.i search_area_number) =>
    match dget area "features", dget area "numberOfRequests" with
    | some (.feats features), some (.i nreq) =>
      let tagged := tagFeatures search_area_number features
      match dedupLoop search_area_number tagged acc.fts acc.ids [] with
      | some (fts1, ids1, new_features) =>
        some { fts := fts1 ++ new_features,
               ids := ids1,
               numberOfRequests := acc.numberOfRequests + nreq,
               numberReturned := acc.numberReturned + (new_features.length : Int) }
      | none => none
    | _, _ => none
  | _ => none

def flattenAreasLoop (acc : FlatAcc) : List Dict → Option FlatAcc
  | [] => some acc
  | area :: rest =>
    match flattenArea acc area with
    | some acc1 => flattenAreasLoop acc1 rest
    | none => none

/-- flatten_search_areas: fold the areas into the accumulator and build the
output geojson dict (datetime.now() is the `now` parameter). -/
def flatten_search_areas (search_areas : List Dict) (now : String) : Option Dict :=
  match flattenAreasLoop ⟨[], [], 0, 0⟩ search_areas with
  | some acc =>
    some [("type", .s "FeatureCollection"),
          ("numberOfRequests", .i acc.numberOfRequests),
          ("numberReturned", .i acc.numberReturned),
          ("features", .feats acc.fts),
          ("timeStamp", .s now)]
  | none => none

/-- Outcome of the per-part fan-out loop: the tagged per-part result dicts,
an error payload returned by a part, or a TypeError from the code guard. -/
inductive GeomLoopOut where
  | areas : List Dict → GeomLoopOut
  | errRet : Dict → GeomLoopOut
  | crash : GeomLoopOut

/-- The per-part loop of multigeometry_search_extension.wrapper: call the
wrapped component per atomic part in order; on an error payload return it
immediately; otherwise tag the response with searchAreaNumber.  Also returns
the trace of parts actually fetched. -/
def geomLoop (inner : Geom → Dict) : List Geom → Nat → List Geom × GeomLoopOut
  | [], _ => ([], .areas [])
  | g :: gs, search_area =>
    let json_response := inner g
    match errCheck json_response with
    | .crash => ([g], .crash)
    | .err => ([g], .errRet json_response)
    | .pass_ =>
      let tagged := dset json_response "searchAreaNumber" (.i (search_area : Int))
      let (tr, out) := geomLoop inner gs (search_area + 1)
      (g :: tr,
       match out with
       | .areas as => .areas (tagged :: as)
       | o => o)

/-- Result of a multigeometry_search_extension call. -/
inductive GeomRes where
  | ret : Dict → GeomRes
  | hier : List Dict → GeomRes
  | raised : String → GeomRes

/-- The 400 dict returned when from_wkt raises GEOSException. -/
def invalidGeometryDict : Dict :=
  [("code", .i 400),
   ("description", .s "The input geometry is not valid. Please ensure you have the correct formatting for your input geometry type."),
   ("help", .s "http://libgeos.org/specifications/wkt/"),
   ("errorSource", .s "Catalyst Wrapper")]

/-- The wkt argument, after the parse step: a parsed geometry, or a parse
failure (GEOSException inside from_wkt). -/
inductive WktInput where
  | ok : Geom → WktInput
  | invalid : WktInput

/-- multigeometry_search_extension.wrapper. -/
def multigeometry_search_extension (inner : Geom → Dict) (wkt : WktInput)
    (hierarchical_output : Bool) (now : String) : List Geom × GeomRes :=
  match wkt with
  | .invalid => ([], .ret invalidGeometryDict)
  | .ok full_geom =>
    let partial_geoms := multilevel_explode full_geom
    match geomLoop inner partial_geoms 0 with
    | (tr, .errRet d) => (tr, .ret d)
    | (tr, .crash) => (tr, .raised "TypeError")
    | (tr, .areas search_areas) =>
      if hierarchical_output then (tr, .hier search_areas)
      else
        match flatten_search_areas search_areas now with
        | some d => (tr, .ret d)
        | none => (tr, .raised "KeyError")

/-- The ids of a feature list, in order (the identity keys the fan-out
de-duplicates on). -/
def fids (l : List Feature) : List Nat := l.map Feature.id

/-- The view of an area dict that flatten_search_areas reads: its
searchAreaNumber, its features and its numberOfRequests. -/
def AreaView (area : Dict) (san : Int) (fs : List Feature) (nreq : Int) : Prop :=
  dget area "searchAreaNumber" = some (.i san) ∧
  dget area "features" = some (.feats fs) ∧
  dget area "numberOfRequests" = some (.i nreq)

/-! ### multiple_collections_extension (src/Azure/NGD_API_Wrappers.py, lines 538-624)

The collection fan-out coordinator.  Collection identifiers become GVal
values because apply_latest_collection can (buggily) leak non-string values
into the collection list; see get_specific_latest_collections below.
The results mapping is modelled as a list of pairs: with duplicate input
names a Python dict would overwrite, but every modelled scenario (and the
intended use) passes distinct collection names. -/

/-- The marker substring the wrapper probes for in error descriptions to
recognize the version-resolver "collection not found" error. -/
def notSupportedMarker : String := "is not a supported Collection"

/-- Substring search over characters (structural so proofs can evaluate). -/
def hasSub (needle : List Char) : List Char → Bool
  | [] => needle.isEmpty
  | c :: rest => needle.isPrefixOf (c :: rest) || hasSub needle rest

/-- Substring containment (Python `needle in haystack` on strings). -/
def containsSub (haystack needle : String) : Bool :=
  hasSub needle.data haystack.data

/-- Python `marker in value` applied to the description value: none models
the TypeError raised when the value does not support membership testing
(absent description, None, or an int). -/
def descrMember (v : Option GVal) : Option Bool :=
  match v with
  | none => none
  | some (.s str) => some (containsSub str notSupportedMarker)
  | some (.i _) => none
  | some .nullv => none
  | some (.feats _) => some false
  | some (.links rels) => some (rels.contains notSupportedMarker)
  | some (.strMap m) => some (m.any (fun p => p.1 = notSupportedMarker))

/-- Outcome of the two response checks in the per-collection loop:
`code = json_response.get('code', 200)`; return the response when code is
404 with the resolver marker in the description, or when code >= 400;
crashC models the TypeError cases (non-integer code compared with an int, or
an untestable description next to a 404 code). -/
inductive CheckRes where
  | pass_ : CheckRes
  | retn : CheckRes
  | crashC : CheckRes
deriving DecidableEq, Repr

def mcCheck (d : Dict) : CheckRes :=
  match (dget d "code").getD (.i 200) with
  | .i c =>
    if c = 404 then
      match descrMember (dget d "description") with
      | none => .crashC
      | some true => .retn
      | some false => if 400 ≤ c then .retn else .pass_
    else if 400 ≤ c then .retn else .pass_
  | _ => .crashC

/-- The per-name lookup loop of get_specific_latest_collections (a dict
comprehension): the value list, or the first base name raising KeyError. -/
def gslcLoop (lookup : List (String × String)) :
    List String → Except String (List (String × GVal))
  | [] => .ok []
  | c :: rest =>
    match (lookup.find? (fun p => p.1 = c)).map (fun p => p.2) with
    | some v => (gslcLoop lookup rest).map (fun d => (c, GVal.s v) :: d)
    | none => .error c

/-- The description of the 404 payload (str(KeyError) carries the quoted
key). -/
def collectionNotFoundDescr (c : String) : String :=
  "Collection '" ++ c ++ "' is not a supported Collection base name. The name must not include a version suffix. Please refer to the documentation for a list of supported Collections."

/-- get_specific_latest_collections (src/Azure/NGD_API_Wrappers.py, lines
77-94), parametrized by the base-name → latest-full-name lookup that the
live code builds from the upstream collections catalog. -/
def get_specific_latest_collections (lookup : List (String × String))
    (collection : List String) : Dict :=
  match gslcLoop lookup collection with
  | .ok d => d
  | .error c =>
    [("code", .i 404),
     ("description", .s (collectionNotFoundDescr c)),
     ("help", .s "https://api.os.uk/features/ngd/ofa/v1/collections")]

/-- Python str.isdigit on the final character (c[-1]); the source raises
IndexError on an empty name, which no modelled scenario uses. -/
def lastCharIsDigit (str : String) : Bool :=
  match str.data.getLast? with
  | some ch => ch.isDigit
  | none => false

/-- multiple_collections_extension.apply_latest_collection: partition on a
trailing digit, resolve the unversioned names in bulk, take the dict VALUES
(also when the resolver returned its 404 error dict - the source does not
check), and append the already versioned names. -/
def apply_latest_collection (lookup : List (String × String))
    (collection : List String) : List GVal :=
  let has_version := collection.filter (fun c => lastCharIsDigit c)
  let no_version := collection.filter (fun c => ¬ lastCharIsDigit c)
  ((get_specific_latest_collections lookup no_version).map (fun p => p.2)) ++
    has_version.map GVal.s

/-- Outcome of the per-collection loop. -/
inductive McLoopOut where
  | results : List (GVal × Dict) → McLoopOut
  | errRet : Dict → McLoopOut
  | crash : McLoopOut

/-- The per-collection loop: call the wrapped component per resolved name in
order, short-circuit per mcCheck, else record the result.  Also returns the
trace of collection values actually fetched. -/
def mcLoop (inner : GVal → Dict) : List GVal → List GVal × McLoopOut
  | [] => ([], .results [])
  | c :: rest =>
    let json_response := inner c
    match mcCheck json_response with
    | .retn => ([c], .errRet json_response)
    | .crashC => ([c], .crash)
    | .pass_ =>
      let (tr, out) := mcLoop inner rest
      (c :: tr,
       match out with
       | .results rs => .results ((c, json_response) :: rs)
       | o => o)

/-- The flattened geojson the wrapper builds (type, timeStamp omitted as
constants; the two ByCollection breakdowns are GVal-keyed maps). -/
structure McFlat where
  numberOfRequests : Int
  numberOfRequestsByCollection : List (GVal × Int)
  numberReturned : Int
  numberReturnedByCollection : List (GVal × Int)
  features : List Feature
deriving DecidableEq

/-- The flattening loop over the per-collection results; none models the
KeyError/TypeError when a child lacks features, numberOfRequests or
numberReturned (pop without default), or holds them at the wrong type. -/
def mcFlattenLoop (acc : McFlat) : List (GVal × Dict) → Option McFlat
  | [] => some acc
  | (col, d) :: rest =>
    match dget d "features", dget d "numberOfRequests", dget d "numberReturned" with
    | some (.feats fs), some (.i nor), some (.i nr) =>
      mcFlattenLoop
        { numberOfRequests := acc.numberOfRequests + nor,
          numberOfRequestsByCollection := acc.numberOfRequestsByCollection ++ [(col, nor)],
          numberReturned := acc.numberReturned + nr,
          numberReturnedByCollection := acc.numberReturnedByCollection ++ [(col, nr)],
          features := acc.features ++ fs } rest
    | _, _, _ => none

/-- Result of a multiple_collections_extension call. -/
inductive McRes where
  | ret : Dict → McRes
  | flat : McFlat → McRes
  | hier : List (GVal × Dict) → McRes
  | raised : String → McRes
deriving DecidableEq

/-- multiple_collections_extension.wrapper.  `inner` receives the forwarded
hierarchical_output flag and the collection value. -/
def multiple_collections_extension (inner : Bool → GVal → Dict)
    (lookup : List (String × String)) (collection : List String)
    (hierarchical_output use_latest_collection : Bool) :
    List GVal × McRes :=
  let cols : List GVal :=
    if use_latest_collection then apply_latest_collection lookup collection
    else collection.map GVal.s
  match mcLoop (inner hierarchical_output) cols with
  | (tr, .errRet d) => (tr, .ret d)
  | (tr, .crash) => (tr, .raised "TypeError")
  | (tr, .results rs) =>
    if hierarchical_output then (tr, .hier rs)
    else
      match mcFlattenLoop ⟨0, [], 0, [], []⟩ rs with
      | some g => (tr, .flat g)
      | none => (tr, .raised "KeyError")

/-! ### oauth2_manager (src/Azure/NGD_API_Wrappers.py, lines 123-172) -/

/-- The 401 dict returned when get_access_token raises PermissionError
(spelling as in the source). -/
def credentialsErrorDict : Dict :=
  [("code", .i 401),
   ("description", .s "Missing or invalid CLIENT_ID and/or CLIENT_SECRET. Make sure these are configured correctely in your environment variables."),
   ("errorSource", .s "Catalyst Wrapper")]

/-- The headers passed to the first inner call: a copy of the caller headers
(empty when None) with Authorization set to a bearer of the current token. -/
def authHeaders (headers : Option Dict) (token : String) : Dict :=
  dset (headers.getD []) "Authorization" (.s ("Bearer " ++ token))

/-- Observable outcome of one oauth2_manager call: the returned dict, how
many times the wrapped fetch ran, whether get_access_token was attempted,
and the ACCESS_TOKEN environment value afterwards. -/
structure OAuthOutcome where
  response : Dict
  calls : Nat
  refreshAttempted : Bool
  finalToken : String
deriving Repr

/-- oauth2_manager.wrapper.  `envToken` is os.environ ACCESS_TOKEN (empty
default); `refresh` is the outcome of get_access_token with the stored
client credentials - a fresh token, or PermissionError. -/
def oauth2_manager (func : Dict → Dict) (headers : Option Dict)
    (envToken : String) (refresh : Except Unit String) : OAuthOutcome :=
  let h1 := authHeaders headers envToken
  let response := func h1
  if dget response "code" ≠ some (.i 401) then
    { response := response, calls := 1, refreshAttempted := false,
      finalToken := envToken }
  else
    match refresh with
    | .error _ =>
      { response := credentialsErrorDict, calls := 1, refreshAttempted := true,
        finalToken := envToken }
    | .ok tok =>
      let h2 := dset h1 "Authorization" (.s ("Bearer " ++ tok))
      { response := func h2, calls := 2, refreshAttempted := true,
        finalToken := tok }

/-! ### Shared predicates for the error-propagation and invariant claims -/

/-- An ErrorPayload in the claims' sense: a mapping whose code field is an
integer of at least 400. -/
def IsErrPayload (d : Dict) : Prop :=
  ∃ c : Int, dget d "code" = some (.i c) ∧ 400 ≤ c

/-- A payload whose description supports the membership probe the collection
fan-out performs next to a 404 code (so no TypeError is raised on it). -/
def Descr404Testable (d : Dict) : Prop :=
  dget d "code" = some (.i 404) → descrMember (dget d "description") ≠ none

/-- numberReturned matches the features length, whenever a dict carries
both. -/
def ChildCountOK (d : Dict) : Prop :=
  ∀ (fts : List Feature) (nr : Int),
    dget d "features" = some (.feats fts) →
    dget d "numberReturned" = some (.i nr) →
    nr = (fts.length : Int)

/-- A concrete upstream for the C3 witness: one good page at offset 0, then
a 503 ErrorPayload. -/
def c3Upstream (qp : Dict) : Dict :=
  if dget qp "offset" = some (.i 0) then
    [("numberReturned", .i 1),
     ("features", .feats [{ id := 0 }]),
     ("links", .links ["self", "next"])]
  else
    [("code", .i 503), ("description", .s "upstream down")]

/-- Concrete runs for the C9 witness. -/
def c9Page : Dict :=
  [("numberReturned", .i 1), ("features", .feats [{ id := 0 }]),
   ("links", .links ["self"])]

def c9LimitRun : List Dict × LimitRes :=
  limit_extension (fun _ => c9Page) (some 50) none none none "t0" 5

def c9LimitResult : Dict :=
  match c9LimitRun.2 with
  | .ret d => d
  | _ => []

def c9GeomRun : List Geom × GeomRes :=
  multigeometry_search_extension
    (fun _ => [("numberOfRequests", GVal.i 1), ("features", GVal.feats [{ id := 5 }])])
    (.ok (.atom 0)) false "t0"

def c9GeomResult : Dict :=
  match c9GeomRun.2 with
  | .ret d => d
  | _ => []

def c9Child : Dict :=
  [("numberOfRequests", .i 1), ("numberReturned", .i 2),
   ("features", .feats [{ id := 1 }, { id := 2 }])]

def c9McRun : List GVal × McRes :=
  multiple_collections_extension (fun _ _ => c9Child) [] ["col1"] false false

def c9McFlat : McFlat :=
  match c9McRun.2 with
  | .flat g => g
  | _ => ⟨0, [], 0, [], []⟩

/-! ### The C4 scenario: an unresolvable base name under useLatestCollection -/

def c4Lookup : List (String × String) := [("goodbase", "goodbase-1")]

/-- The NotFoundError ErrorPayload the Version Resolver produces for the
unresolvable base name. -/
def c4NotFound : Dict :=
  [("code", .i 404),
   ("description", .s (collectionNotFoundDescr "badbase")),
   ("help", .s "https://api.os.uk/features/ngd/ofa/v1/collections")]

/-- The upstream error the fetch returns when called with the leaked garbage
collection value. -/
def c4UpstreamErr : Dict :=
  [("code", .i 404), ("description", .s "Collection not found."),
   ("errorSource", .s "OS NGD API")]

/-! ### construct_filter_param (src/Azure/NGD_API_Wrappers.py, lines 200-206,
and src/app_flask/NGD_API_Wrappers.py, lines 121-127) -/

/-- A filter-parameter value: string, int or bool. -/
inductive FPVal where
  | s : String → FPVal
  | i : Int → FPVal
  | b : Bool → FPVal
deriving DecidableEq, Repr

/-- Python f-string rendering of a filter value. -/
def fpvStr : FPVal → String
  | .s v => v
  | .i v => toString v
  | .b v => if v then "True" else "False"

/-- Python `isinstance(str, v)`, as written in the Azure source: the
arguments are swapped, and since the second argument must be a type, this
raises TypeError for every data value. -/
def isinstanceStrSwapped (v : FPVal) : Except String Bool :=
  .error "TypeError: isinstance() arg 2 must be a type, a tuple of types, or a union"

/-- The Azure quoting loop:
for k, v in params.items(): if isinstance(str, v): params[k] = quoted. -/
def azureQuoteLoop : List (String × FPVal) → Except String (List (String × FPVal))
  | [] => .ok []
  | (k, v) :: rest =>
    match isinstanceStrSwapped v with
    | .error e => .error e
    | .ok true =>
      (azureQuoteLoop rest).map (fun l => (k, FPVal.s ("'" ++ fpvStr v ++ "'")) :: l)
    | .ok false => (azureQuoteLoop rest).map (fun l => (k, v) :: l)

/-- construct_filter_param (Azure variant): quote string values, then join
the (key=value) predicates with "and".  The quoting loop raises TypeError on
every non-empty mapping because of the swapped isinstance arguments. -/
def construct_filter_param (params : List (String × FPVal)) : Except String String :=
  (azureQuoteLoop params).map
    (fun qs => "and".intercalate (qs.map (fun p => "(" ++ p.1 ++ "=" ++ fpvStr p.2 ++ ")")))

/-- construct_filter_param (app_flask variant): `type(v) == str` quoting,
then the same join. -/
def construct_filter_param_flask (params : List (String × FPVal)) : String :=
  let quoted := params.map (fun p =>
    match p.2 with
    | FPVal.s sv => (p.1, FPVal.s ("'" ++ sv ++ "'"))
    | v => (p.1, v))
  "and".intercalate (quoted.map (fun p => "(" ++ p.1 ++ "=" ++ fpvStr p.2 ++ ")"))

/-! ### get_latest_collection_versions (src/Azure lines 28-75 and
src/app_flask lines 369-403), parametrized by the catalog id list the live
code fetches from the upstream collections endpoint.  Only the
flag_recent_updates=False lookup path is modelled: the recent-updates branch
reads catalog timestamps and is outside every claim. -/

/-- re.split(r"-(?=[^-]*$)", col): split at the last hyphen; none when there
is no hyphen (the source would then fail unpacking the two parts). -/
def splitLastHyphen : List Char → Option (List Char × List Char)
  | [] => none
  | c :: cs =>
    match splitLastHyphen cs with
    | some (pre, suf) => some (c :: pre, suf)
    | none => if c = '-' then some ([], cs) else none

/-- Python int() on the version substring; none models ValueError. -/
def parseNat? (cs : List Char) : Option Nat :=
  if cs ≠ [] ∧ cs.all Char.isDigit then
    some (cs.foldl (fun a c => a * 10 + (c.toNat - 48)) 0)
  else none

/-- One step of the Azure grouping loop: append the version to an existing
basename entry, or append a fresh entry. -/
def groupUpdate (acc : List (String × List Nat)) (basename : String)
    (v : Nat) : List (String × List Nat) :=
  if (acc.find? (fun p => p.1 = basename)).isSome then
    acc.map (fun p => if p.1 = basename then (p.1, p.2 ++ [v]) else p)
  else acc ++ [(basename, [v])]

/-- The Azure grouping loop: basename → its versions, in first-seen order. -/
def azureCollectionsDict :
    List String → List (String × List Nat) → Option (List (String × List Nat))
  | [], acc => some acc
  | col :: rest, acc =>
    match splitLastHyphen col.data with
    | none => none
    | some (pre, suf) =>
      match parseNat? suf with
      | none => none
      | some v =>
        azureCollectionsDict rest (groupUpdate acc (String.mk pre) v)

/-- get_latest_collection_versions, Azure variant: group by the basename
left of the last hyphen, then map each base to base-maxversion. -/
def get_latest_collection_versions (collections_list : List String) :
    Option (List (String × String)) :=
  (azureCollectionsDict collections_list []).map
    (fun dict => dict.map (fun p => (p.1, p.1 ++ "-" ++ toString (p.2.foldl max 0))))

/-- re.sub(r"-\d+$", "", c): strip one trailing hyphen-digits suffix. -/
def stripVersionSuffix (str : String) : String :=
  let rev := str.data.reverse
  let digits := rev.takeWhile Char.isDigit
  let rest := rev.dropWhile Char.isDigit
  if digits ≠ [] ∧ rest.headD 'x' = '-' then String.mk ((rest.drop 1).reverse)
  else str

/-- Python set(...): arbitrary iteration order, modelled as first-occurrence
de-duplication (the produced mapping is order-independent). -/
def dedupFirst (l : List String) : List String :=
  l.foldl (fun acc str => if str ∈ acc then acc else acc ++ [str]) []

/-- c.split("-")[-1]. -/
def lastDashPart (str : String) : List Char :=
  match splitLastHyphen str.data with
  | some (_, suf) => suf
  | none => str.data

/-- Python max(l, key=int-of-last-dash-part): the first maximal element;
none models ValueError (empty list or a non-integer key). -/
def maxByGo (best : String × Nat) : List String → Option String
  | [] => some best.1
  | c :: rest =>
    match parseNat? (lastDashPart c) with
    | none => none
    | some k => maxByGo (if best.2 < k then (c, k) else best) rest

def maxByIntSuffix : List String → Option String
  | [] => none
  | c :: rest =>
    match parseNat? (lastDashPart c) with
    | none => none
    | some k => maxByGo (c, k) rest

/-- get_latest_collection_versions, app_flask variant: base names by
stripping the version suffix, then for each base the max-by-int-suffix over
`c.startswith(base_name)` matches - a PREFIX match, not an exact base-name
match. -/
def get_latest_collection_versions_flask (collections_list : List String) :
    Option (List (String × String)) :=
  let bases := dedupFirst (collections_list.map stripVersionSuffix)
  bases.mapM (fun b =>
    (maxByIntSuffix (collections_list.filter (fun c => b.data.isPrefixOf c.data))).map
      (fun m => (b, m)))

/-- A structured catalog entry spelled the way the NGD catalog spells
identifiers: base-version with the version in decimal. -/
def renderId (p : String × Nat) : String := p.1 ++ "-" ++ toString p.2

/-- The versions a structured catalog associates with base b, in order. -/
def versionsOf (cat : List (String × Nat)) (b : String) : List Nat :=
  (cat.filter (fun p => p.1 = b)).map (fun p => p.2)

/-- The grouping loop re-expressed over a structured catalog. -/
def groupFold (cat : List (String × Nat)) (acc : List (String × List Nat)) :
    List (String × List Nat) :=
  cat.foldl (fun a p => groupUpdate a p.1 p.2) acc

/-- The number whose decimal digits are a's digits followed by n's. -/
def pushDecimal (a n : Nat) : Nat :=
  if n < 10 then a * 10 + n
  else pushDecimal a (n / 10) * 10 + n % 10
termination_by n
decreasing_by exact Nat.div_lt_self (by omega) (by omega)

/-! ### Frame effects (C10): caller dicts are copied before any mutation

A small mutable-dict heap: references index a store of dict objects.  Each
operation is re-expressed against the store, performing exactly the dict
copies and in-place writes the source performs on the three caller-supplied
mappings; the HTTP call and response handling touch none of them and are
abstracted into the inner-callable / outcome parameters. -/

abbrev Store := List Dict

def Store.read (σ : Store) (r : Nat) : Dict := σ.getD r []

def Store.write (σ : Store) (r : Nat) (d : Dict) : Store := σ.set r d

/-- Allocate a fresh dict object; existing references are untouched. -/
def Store.alloc (σ : Store) (d : Dict) : Store × Nat := (σ ++ [d], σ.length)

/-- The crs-normalization loop: integer values under keys containing "crs"
are rewritten to EPSG URIs, in place on the (copied) query params. -/
def crsNormalize (d : Dict) : Dict :=
  d.map (fun p =>
    match p.2 with
    | GVal.i v =>
      if containsSub p.1 "crs" then
        (p.1, GVal.s ("http://www.opengis.net/def/crs/EPSG/0/" ++ toString v))
      else p
    | _ => p)

inductive NgdEffect where
  | retN : NgdEffect
  | raisedN : NgdEffect

/-- ngd_items_request, restricted to its effects on the caller dicts
(src/Azure lines 240-331): copy query_params, filter_params and headers up
front; with a non-empty filter mapping construct_filter_param raises (the
swapped isinstance arguments) before any dict write; the wkt spatial filter
merges into the copied query params; crs values are normalized on the copy;
the host header is popped from the copied headers.  All writes target the
three fresh copies. -/
def ngd_items_request_effects (σ : Store) (qpRef fpRef hRef : Nat)
    (wkt : Option String) : Store × NgdEffect :=
  let p1 := σ.alloc (σ.read qpRef)
  let p2 := p1.1.alloc (p1.1.read fpRef)
  let p3 := p2.1.alloc (p2.1.read hRef)
  let σ3 := p3.1
  let qp1 := p1.2
  let h1 := p3.2
  if σ3.read p2.2 ≠ [] then
    (σ3, .raisedN)
  else
    let σ4 :=
      match wkt with
      | some w =>
        let spatial := "(INTERSECTS(geometry," ++ w ++ "))"
        let merged :=
          match dget (σ3.read qp1) "filter" with
          | some (GVal.s cur) => "(" ++ cur ++ ")and" ++ spatial
          | _ => spatial
        σ3.write qp1 (dset (σ3.read qp1) "filter" (.s merged))
      | none => σ3
    let σ5 := σ4.write qp1 (crsNormalize (σ4.read qp1))
    let σ6 := σ5.write h1 ((σ5.read h1).filter (fun p => p.1 ≠ "host"))
    (σ6, .retN)

/-- limit_extension, restricted to its effects on the caller query_params
dict: one copy up front, then per-iteration limit/offset writes on that
copy; the wrapped callable receives the store and the copy reference, and
signals whether the loop continues. -/
def limitLoopEffects (inner : Store → Nat → Store × Bool)
    (batch : Option (Int × Int)) :
    Nat → Int → Int → Store → Nat → Store
  | 0, _, _, σ, _ => σ
  | fuel + 1, rc, off, σ, qp1 =>
    let σ1 := σ.write qp1 (nextQueryParams batch rc off (σ.read qp1))
    let p := inner σ1 qp1
    if p.2 then limitLoopEffects inner batch fuel (rc + 1) (off + 100) p.1 qp1
    else p.1

def limit_extension_effects (inner : Store → Nat → Store × Bool)
    (σ : Store) (qpRef : Nat) (batch : Option (Int × Int)) (fuel : Nat) : Store :=
  let p1 := σ.alloc (σ.read qpRef)
  limitLoopEffects inner batch fuel 0 0 p1.1 p1.2

/-- oauth2_manager, restricted to its effects on the caller headers dict:
copy, set Authorization on the copy, call the wrapped fetch (which reports
whether it returned 401), optionally set the refreshed Authorization on the
same copy and call again. -/
def oauth2_manager_effects (inner : Store → Nat → Store × Bool)
    (σ : Store) (hRef : Nat) (envToken : String)
    (refresh : Except Unit String) : Store :=
  let p1 := σ.alloc (σ.read hRef)
  let h1 := p1.2
  let σ2 := p1.1.write h1 (dset (p1.1.read h1) "Authorization"
    (.s ("Bearer " ++ envToken)))
  let q := inner σ2 h1
  if ¬ q.2 then q.1
  else
    match refresh with
    | .error _ => q.1
    | .ok tok =>
      let σ4 := q.1.write h1 (dset (q.1.read h1) "Authorization"
        (.s ("Bearer " ++ tok)))
      (inner σ4 h1).1

end NGD

namespace NGD

/-- C1: calling the pagination coordinator (limit_extension) with limit=250
against an upstream that returns pages of 100 features with a rel="next" link
until 250 features exist issues exactly 3 inner requests, accumulates exactly
250 features (echoed by numberReturned), constrains the third request's
query limit parameter to 50 (= divmod(250,100).snd), and returns a ResultSet
in which no offset key appears. -/
theorem c1_pagination_three_requests :
    c1Run.2 = .ret c1Result ∧
    c1Run.1.length = 3 ∧
    featsLen c1Result = 250 ∧
    dget c1Result "numberReturned" = some (.i 250) ∧
    dget (c1Run.1.getD 2 []) "limit" = some (.i 50) ∧
    "offset" ∉ dkeys c1Result :=
  ⟨rfl, rfl, rfl, rfl, rfl, by decide⟩

/-- C6 counterexample: with limit and request_limit both absent, the
pagination coordinator raises AttributeError across the coordinator boundary
instead of returning an ErrorPayload dict, refuting the claim that both
validation failures are represented as returned ErrorPayload objects. -/
theorem c6_absent_limits_raises :
    limit_extension (c1Upstream 250) none none none none "t0" 5 =
      ([], .raised limitAttributeError) :=
  rfl

/-- C6 amended: a caller-supplied offset is rejected with a returned
ErrorPayload (code 400) before any upstream request; when limit and
request_limit are both absent (or zero), the coordinator raises an
AttributeError — an uncaught fault, not an ErrorPayload — again before any
upstream request. -/
theorem c6_validation_before_any_request :
    (∀ (inner : Dict → Dict) request_limit limit (query_params : Option Dict)
        collection now fuel,
      "offset" ∈ dkeys (query_params.getD []) →
      limit_extension inner request_limit limit query_params collection now fuel =
        ([], .ret offsetErrorDict)) ∧
    dget offsetErrorDict "code" = some (.i 400) ∧
    (∀ (inner : Dict → Dict) request_limit limit (query_params : Option Dict)
        collection now fuel,
      "offset" ∉ dkeys (query_params.getD []) →
      truthyInt limit = false → truthyInt request_limit = false →
      limit_extension inner request_limit limit query_params collection now fuel =
        ([], .raised limitAttributeError)) := by
  refine ⟨?_, rfl, ?_⟩
  · intro inner request_limit limit query_params collection now fuel hoff
    cases query_params with
    | none => simp [Option.getD, dkeys] at hoff
    | some d =>
      simp only [Option.getD] at hoff
      unfold limit_extension
      by_cases hd : d = []
      · subst hd; simp [dkeys] at hoff
      · simp [hd, hoff]
  · intro inner request_limit limit query_params collection now fuel hoff hlim hrl
    cases query_params with
    | none =>
      unfold limit_extension
      simp [dkeys] at hoff ⊢
      simp [hlim, hrl]
    | some d =>
      simp only [Option.getD] at hoff
      unfold limit_extension
      by_cases hd : d = []
      · subst hd
        simp [dkeys] at hoff ⊢
        simp [hlim, hrl]
      · simp [hd, hoff, hlim, hrl]

/-- C6 amended, witness: both branches at concrete inputs. -/
theorem c6_validation_before_any_request_witness :
    limit_extension (c1Upstream 250) (some 50) (some 250)
        (some [("offset", .i 0)]) none "t0" 5 = ([], .ret offsetErrorDict) ∧
    limit_extension (c1Upstream 250) (some 0) none none none "t0" 5 =
      ([], .raised limitAttributeError) :=
  ⟨c6_validation_before_any_request.1 (c1Upstream 250) (some 50) (some 250)
      (some [("offset", .i 0)]) none "t0" 5 (by decide),
   c6_validation_before_any_request.2.2 (c1Upstream 250) (some 0) none none
      none "t0" 5 (by decide) rfl rfl⟩

end NGD

namespace NGD

/-! ### Lemmas about flatten_search_areas -/

theorem set_getElem_lt_self {α : Type} (l : List α) (j : Nat) (hlt : j < l.length) :
    l.set j l[j] = l := by
  induction l generalizing j with
  | nil => simp at hlt
  | cons x t ih =>
    cases j with
    | zero => simp
    | succ n =>
      simp only [List.set, List.getElem_cons_succ, List.cons.injEq, true_and]
      exact ih n (by simpa using hlt)

theorem set_getElem_self {α : Type} (l : List α) (j : Nat) (a : α)
    (h : l[j]? = some a) : l.set j a = l := by
  obtain ⟨hlt, rfl⟩ := List.getElem?_eq_some_iff.mp h
  exact set_getElem_lt_self l j hlt

theorem fids_append (l1 l2 : List Feature) :
    fids (l1 ++ l2) = fids l1 ++ fids l2 := by
  simp [fids]

theorem fids_set_of_getElem? {fts : List Feature} {j : Nat} {gf f1 : Feature}
    (hg : fts[j]? = some gf) (hid : f1.id = gf.id) :
    fids (fts.set j f1) = fids fts := by
  have h1 : fids (fts.set j f1) = (fids fts).set j f1.id := by
    simp [fids, List.map_set]
  have h2 : (fids fts)[j]? = some gf.id := by
    simp [fids, List.getElem?_map, hg]
  rw [h1, hid]
  exact set_getElem_self _ _ _ h2

theorem fids_tagFeatures (san : Int) (fs : List Feature) :
    fids (tagFeatures san fs) = fids fs := by
  simp [fids, tagFeatures]

/-- Specialization of fids_set_of_getElem? to the collision update. -/
theorem fids_set_push (san : Int) {fts : List Feature} {index : Nat} {gf : Feature}
    (hget : fts[index]? = some gf) :
    fids (fts.set index
      { gf with searchAreaNumber := some (pushSAN gf.searchAreaNumber san) }) = fids fts :=
  fids_set_of_getElem? hget rfl

/-- Under a duplicate-free id list, findIdx? locates exactly the index of the
feature we already hold. -/
theorem findIdx?_of_nodup {fts : List Feature} {j : Nat} {gf : Feature}
    (hnd : (fids fts).Nodup) (hg : fts[j]? = some gf) :
    fts.findIdx? (fun g => g.id = gf.id) = some j := by
  induction fts generalizing j with
  | nil => simp at hg
  | cons a t ih =>
    have hnd1 : (fids t).Nodup := by
      simp only [fids, List.map_cons, List.nodup_cons] at hnd
      exact hnd.2
    cases j with
    | zero =>
      simp only [List.getElem?_cons_zero, Option.some.injEq] at hg
      subst hg
      simp [List.findIdx?_cons]
    | succ n =>
      simp only [List.getElem?_cons_succ] at hg
      have hmem : gf.id ∈ fids t := by
        have : gf ∈ t := List.getElem?_mem hg
        exact List.mem_map_of_mem Feature.id this
      have hne : ¬ (a.id = gf.id) := by
        intro hcontra
        simp only [fids, List.map_cons, List.nodup_cons] at hnd
        exact hnd.1 (hcontra ▸ hmem)
      rw [List.findIdx?_cons]
      simp only [hne, decide_eq_true_eq, if_neg]
      have := ih hnd1 hg
      -- findIdx? with start index 1: shift lemma
      rw [List.findIdx?_start_succ]
      simp [this]

end NGD

namespace NGD

/-- dedupLoop never rewrites an accumulator entry whose id does not occur in
the features still to process. -/
theorem dedupLoop_untouched (san : Int) (toProc : List Feature) :
    ∀ (fts : List Feature) (ids : List Nat) (new fts1 : List Feature)
      (ids1 : List Nat) (new1 : List Feature) (j : Nat) (gf : Feature),
    dedupLoop san toProc fts ids new = some (fts1, ids1, new1) →
    fts[j]? = some gf →
    (fids toProc).count gf.id = 0 →
    fts1[j]? = some gf := by
  induction toProc with
  | nil =>
    intro fts ids new fts1 ids1 new1 j gf h hg _
    simp only [dedupLoop, Option.some.injEq, Prod.mk.injEq] at h
    obtain ⟨rfl, -, -⟩ := h
    exact hg
  | cons feat rest ih =>
    intro fts ids new fts1 ids1 new1 j gf h hg hcount
    have hcons : fids (feat :: rest) = feat.id :: fids rest := rfl
    rw [hcons, List.count_cons] at hcount
    simp only [beq_iff_eq] at hcount
    have hne : gf.id ≠ feat.id := by
      intro hc
      rw [if_pos hc.symm] at hcount
      omega
    have hcount_rest : (fids rest).count gf.id = 0 := by
      rw [if_neg (fun hc => hne hc.symm)] at hcount
      omega
    rw [dedupLoop] at h
    split at h
    · -- collision branch
      split at h
      case h_1 index hidx =>
        split at h
        case h_1 gf2 hget =>
          have hj : index ≠ j := by
            intro hc
            subst hc
            rw [hg] at hget
            obtain rfl : gf = gf2 := by injection hget
            obtain ⟨hlt2, hpred, -⟩ := List.findIdx?_eq_some_iff_getElem.mp hidx
            simp only [decide_eq_true_eq] at hpred
            obtain ⟨hlt3, hgf⟩ := List.getElem?_eq_some_iff.mp hg
            rw [hgf] at hpred
            exact hne hpred
          have hg1 : (fts.set index
              { gf2 with searchAreaNumber := some (pushSAN gf2.searchAreaNumber san) })[j]? =
              some gf := by
            rw [List.getElem?_set_ne hj]
            exact hg
          exact ih _ ids new fts1 ids1 new1 j gf h hg1 hcount_rest
        case h_2 => exact absurd h (by simp)
      case h_2 => exact absurd h (by simp)
    · -- new-feature branch
      exact ih fts _ _ fts1 ids1 new1 j gf h hg hcount_rest

end NGD

namespace NGD

/-- The structural invariant of the de-duplication loop: the seen-id list is
exactly the ids of accumulator plus new features, stays duplicate-free, the
accumulator ids are untouched, and the final id set is the old one united
with the ids of the processed features. -/
theorem dedupLoop_spec (san : Int) (toProc : List Feature) :
    ∀ (fts : List Feature) (ids : List Nat) (new fts1 : List Feature)
      (ids1 : List Nat) (new1 : List Feature),
    dedupLoop san toProc fts ids new = some (fts1, ids1, new1) →
    ids = fids fts ++ fids new →
    ids.Nodup →
    fids fts1 = fids fts ∧
    ids1 = fids fts1 ++ fids new1 ∧
    ids1.Nodup ∧
    (∀ x, x ∈ ids1 ↔ x ∈ ids ∨ x ∈ fids toProc) := by
  induction toProc with
  | nil =>
    intro fts ids new fts1 ids1 new1 h hids hnd
    simp only [dedupLoop, Option.some.injEq, Prod.mk.injEq] at h
    obtain ⟨rfl, rfl, rfl⟩ := h
    exact ⟨rfl, hids, hnd, fun x => by simp [fids]⟩
  | cons feat rest ih =>
    intro fts ids new fts1 ids1 new1 h hids hnd
    rw [dedupLoop] at h
    split at h
    case isTrue hmem =>
      split at h
      case h_1 index hidx =>
        split at h
        case h_1 gf2 hget =>
          have hfid : fids (fts.set index
              { gf2 with searchAreaNumber := some (pushSAN gf2.searchAreaNumber san) }) =
              fids fts := fids_set_of_getElem? hget rfl
          obtain ⟨h1, h2, h3, h4⟩ :=
            ih _ ids new fts1 ids1 new1 h (by rw [hfid]; exact hids) hnd
          refine ⟨by rw [h1, hfid], h2, h3, fun x => ?_⟩
          rw [h4 x]
          constructor
          · rintro (hx | hx)
            · exact Or.inl hx
            · exact Or.inr (by simp [fids]; right; simpa [fids] using hx)
          · rintro (hx | hx)
            · exact Or.inl hx
            · rcases (by simpa [fids] using hx : x = feat.id ∨ x ∈ fids rest) with hx1 | hx1
              · exact Or.inl (hx1 ▸ hmem)
              · exact Or.inr hx1
        case h_2 => exact absurd h (by simp)
      case h_2 => exact absurd h (by simp)
    case isFalse hmem =>
      have hids1 : ids ++ [feat.id] =
          fids fts ++ fids (new ++ [{ feat with searchAreaNumber := some (.one san) }]) := by
        rw [hids, fids_append]
        simp [fids]
      have hnd1 : (ids ++ [feat.id]).Nodup := by
        rw [List.nodup_append]
        exact ⟨hnd, List.nodup_singleton _, by
          intro x hx hx1
          rw [List.mem_singleton] at hx1
          exact hmem (hx1 ▸ hx)⟩
      obtain ⟨h1, h2, h3, h4⟩ := ih fts _ _ fts1 ids1 new1 h hids1 hnd1
      refine ⟨h1, h2, h3, fun x => ?_⟩
      rw [h4 x]
      constructor
      · rintro (hx | hx)
        · rcases List.mem_append.mp hx with hx1 | hx1
          · exact Or.inl hx1
          · rw [List.mem_singleton] at hx1
            exact Or.inr (by simp [fids, hx1])
        · exact Or.inr (by simp [fids]; right; simpa [fids] using hx)
      · rintro (hx | hx)
        · exact Or.inl (List.mem_append.mpr (Or.inl hx))
        · rcases (by simpa [fids] using hx : x = feat.id ∨ x ∈ fids rest) with hx1 | hx1
          · exact Or.inl (List.mem_append.mpr (Or.inr (by simp [hx1])))
          · exact Or.inr hx1

end NGD

namespace NGD

/-- Unfolding equation for the collision branch of dedupLoop. -/
theorem dedupLoop_cons_collision (san : Int) (feat : Feature) (rest fts : List Feature)
    (ids : List Nat) (new : List Feature) (hmem : feat.id ∈ ids)
    {index : Nat} {gf : Feature}
    (hidx : fts.findIdx? (fun g => g.id = feat.id) = some index)
    (hget : fts[index]? = some gf) :
    dedupLoop san (feat :: rest) fts ids new =
      dedupLoop san rest
        (fts.set index { gf with searchAreaNumber := some (pushSAN gf.searchAreaNumber san) })
        ids new := by
  simp only [dedupLoop, if_pos hmem, hidx, hget]

/-- Unfolding equation for the fresh-feature branch of dedupLoop. -/
theorem dedupLoop_cons_fresh (san : Int) (feat : Feature) (rest fts : List Feature)
    (ids : List Nat) (new : List Feature) (hmem : feat.id ∉ ids) :
    dedupLoop san (feat :: rest) fts ids new =
      dedupLoop san rest fts (ids ++ [feat.id])
        (new ++ [{ feat with searchAreaNumber := some (.one san) }]) := by
  simp only [dedupLoop, if_neg hmem]

/-- When no processed feature id has been seen before, every feature is added
as new (with this area number), the accumulator is untouched, and the ids are
appended in order. -/
theorem dedupLoop_all_new (san : Int) (toProc : List Feature) :
    ∀ (fts : List Feature) (ids : List Nat) (new : List Feature),
    (∀ f ∈ toProc, f.id ∉ ids) →
    (fids toProc).Nodup →
    dedupLoop san toProc fts ids new =
      some (fts, ids ++ fids toProc,
            new ++ toProc.map (fun f => { f with searchAreaNumber := some (.one san) })) := by
  induction toProc with
  | nil => intro fts ids new _ _; simp [dedupLoop, fids]
  | cons feat rest ih =>
    intro fts ids new hfresh hnd
    rw [dedupLoop, if_neg (hfresh feat (by simp))]
    have hnd1 : (fids rest).Nodup := by
      have : fids (feat :: rest) = feat.id :: fids rest := rfl
      rw [this, List.nodup_cons] at hnd
      exact hnd.2
    have hfresh1 : ∀ f ∈ rest, f.id ∉ ids ++ [feat.id] := by
      intro f hf hmem
      rcases List.mem_append.mp hmem with h1 | h1
      · exact hfresh f (by simp [hf]) h1
      · rw [List.mem_singleton] at h1
        have : fids (feat :: rest) = feat.id :: fids rest := rfl
        rw [this, List.nodup_cons] at hnd
        exact hnd.1 (h1 ▸ List.mem_map_of_mem Feature.id hf)
    rw [ih fts (ids ++ [feat.id]) _ hfresh1 hnd1]
    simp [fids]

/-- The loop succeeds whenever the processed features have duplicate-free ids
and every already-seen processed id is the id of an accumulator entry. -/
theorem dedupLoop_succeeds (san : Int) (toProc : List Feature) :
    ∀ (fts : List Feature) (ids : List Nat) (new : List Feature),
    (∀ f ∈ toProc, f.id ∈ ids → f.id ∈ fids fts) →
    (fids toProc).Nodup →
    (∀ f ∈ toProc, f.id ∉ fids new) →
    (dedupLoop san toProc fts ids new).isSome := by
  induction toProc with
  | nil => intro fts ids new _ _ _; simp [dedupLoop]
  | cons feat rest ih =>
    intro fts ids new hseen hnd hnew
    have hnd1 : (fids rest).Nodup ∧ feat.id ∉ fids rest := by
      have : fids (feat :: rest) = feat.id :: fids rest := rfl
      rw [this, List.nodup_cons] at hnd
      exact ⟨hnd.2, hnd.1⟩
    by_cases hmem : feat.id ∈ ids
    · have hmemfts : feat.id ∈ fids fts := hseen feat (by simp) hmem
      obtain ⟨gf, hgf, hgfid⟩ := List.mem_map.mp hmemfts
      have hfind : (fts.findIdx? (fun g => g.id = feat.id)).isSome := by
        rw [List.findIdx?_isSome, List.any_eq_true]
        exact ⟨gf, hgf, by simp [hgfid]⟩
      cases hidx : fts.findIdx? (fun g => g.id = feat.id) with
      | none => rw [hidx] at hfind; simp at hfind
      | some index =>
        obtain ⟨hlt, -, -⟩ := List.findIdx?_eq_some_iff_getElem.mp hidx
        rw [dedupLoop_cons_collision san feat rest fts ids new hmem hidx
          (List.getElem?_eq_getElem hlt)]
        exact ih _ ids new
          (fun f hf hfid => by
            rw [fids_set_push san (List.getElem?_eq_getElem hlt)]
            exact hseen f (by simp [hf]) hfid)
          hnd1.1 (fun f hf => hnew f (by simp [hf]))
    · rw [dedupLoop_cons_fresh san feat rest fts ids new hmem]
      exact ih fts _ _
        (fun f hf hfid => by
          rcases List.mem_append.mp hfid with h1 | h1
          · exact hseen f (by simp [hf]) h1
          · rw [List.mem_singleton] at h1
            exact ((hnd1.2) (h1 ▸ List.mem_map_of_mem Feature.id hf)).elim)
        hnd1.1
        (fun f hf hfid => by
          rw [fids_append] at hfid
          rcases List.mem_append.mp hfid with h1 | h1
          · exact hnew f (by simp [hf]) h1
          · have : fids [{ feat with searchAreaNumber := some (SAN.one san) }] = [feat.id] := rfl
            rw [this, List.mem_singleton] at h1
            exact hnd1.2 (h1 ▸ List.mem_map_of_mem Feature.id hf))

end NGD

namespace NGD

/-- An accumulator entry whose id occurs exactly once among the processed
features receives exactly one searchAreaNumber promotion. -/
theorem dedupLoop_collide_once (san : Int) (toProc : List Feature) :
    ∀ (fts : List Feature) (ids : List Nat) (new fts1 : List Feature)
      (ids1 : List Nat) (new1 : List Feature) (j : Nat) (gf : Feature),
    dedupLoop san toProc fts ids new = some (fts1, ids1, new1) →
    ids = fids fts ++ fids new →
    ids.Nodup →
    fts[j]? = some gf →
    (fids toProc).count gf.id = 1 →
    fts1[j]? = some { gf with searchAreaNumber := some (pushSAN gf.searchAreaNumber san) } := by
  induction toProc with
  | nil =>
    intro fts ids new fts1 ids1 new1 j gf h hids hnd hg hcount
    simp [fids] at hcount
  | cons feat rest ih =>
    intro fts ids new fts1 ids1 new1 j gf h hids hnd hg hcount
    have hcons : fids (feat :: rest) = feat.id :: fids rest := rfl
    rw [hcons, List.count_cons] at hcount
    simp only [beq_iff_eq] at hcount
    by_cases hfeat : gf.id = feat.id
    · -- the single occurrence is the head: the collision happens now
      rw [if_pos hfeat.symm] at hcount
      have hcount_rest : (fids rest).count gf.id = 0 := by omega
      have hndfts : (fids fts).Nodup := by
        rw [hids] at hnd
        exact (List.nodup_append.mp hnd).1
      have hmem : feat.id ∈ ids := by
        rw [hids]
        refine List.mem_append.mpr (Or.inl ?_)
        rw [← hfeat]
        exact List.mem_map_of_mem Feature.id (List.getElem?_mem hg)
      have hidx : fts.findIdx? (fun g => g.id = feat.id) = some j := by
        rw [← hfeat]
        exact findIdx?_of_nodup hndfts hg
      rw [dedupLoop_cons_collision san feat rest fts ids new hmem hidx hg] at h
      have hlt : j < fts.length := (List.getElem?_eq_some_iff.mp hg).1
      have hg1 : (fts.set j
          { gf with searchAreaNumber := some (pushSAN gf.searchAreaNumber san) })[j]? =
          some { gf with searchAreaNumber := some (pushSAN gf.searchAreaNumber san) } :=
        List.getElem?_set_self (by simpa using hlt)
      exact dedupLoop_untouched san rest _ ids new fts1 ids1 new1 j _ h hg1
        (by simpa using hcount_rest)
    · -- the head feature has a different id than the tracked entry
      rw [if_neg (fun hc => hfeat hc.symm)] at hcount
      by_cases hmem : feat.id ∈ ids
      · rw [dedupLoop] at h
        rw [if_pos hmem] at h
        split at h
        next index hidx =>
          split at h
          next gf2 hget =>
            have hgf2 : gf2.id = feat.id := by
              obtain ⟨hlt2, hpred, -⟩ := List.findIdx?_eq_some_iff_getElem.mp hidx
              simp only [decide_eq_true_eq] at hpred
              obtain ⟨hlt4, hgf2e⟩ := List.getElem?_eq_some_iff.mp hget
              rw [hgf2e] at hpred
              exact hpred
            have hj : index ≠ j := by
              intro hc
              subst hc
              rw [hg] at hget
              obtain rfl : gf = gf2 := by injection hget
              exact hfeat hgf2
            have hg1 : (fts.set index
                { gf2 with searchAreaNumber := some (pushSAN gf2.searchAreaNumber san) })[j]? =
                some gf := by
              rw [List.getElem?_set_ne hj]
              exact hg
            exact ih _ ids new fts1 ids1 new1 j gf h
              (by rw [fids_set_push san hget]; exact hids) hnd hg1 hcount
          next => exact absurd h (by simp)
        next => exact absurd h (by simp)
      · rw [dedupLoop_cons_fresh san feat rest fts ids new hmem] at h
        have hids1 : ids ++ [feat.id] =
            fids fts ++ fids (new ++ [{ feat with searchAreaNumber := some (.one san) }]) := by
          rw [hids, fids_append]
          simp [fids]
        have hnd1 : (ids ++ [feat.id]).Nodup := by
          rw [List.nodup_append]
          exact ⟨hnd, List.nodup_singleton _, by
            intro x hx hx1
            rw [List.mem_singleton] at hx1
            exact hmem (hx1 ▸ hx)⟩
        exact ih fts _ _ fts1 ids1 new1 j gf h hids1 hnd1 hg hcount

/-- A feature list with duplicate-free ids filters to exactly its unique
entry with a given id. -/
theorem filter_id_single {fts : List Feature} {j : Nat} {f : Feature} {x : Nat}
    (hnd : (fids fts).Nodup) (hg : fts[j]? = some f) (hid : f.id = x) :
    fts.filter (fun g => g.id = x) = [f] := by
  induction fts generalizing j with
  | nil => simp at hg
  | cons a t ih =>
    have hnda : a.id ∉ fids t ∧ (fids t).Nodup := by
      have : fids (a :: t) = a.id :: fids t := rfl
      rw [this, List.nodup_cons] at hnd
      exact hnd
    cases j with
    | zero =>
      simp only [List.getElem?_cons_zero, Option.some.injEq] at hg
      subst hg
      rw [List.filter_cons, if_pos (by simp [hid])]
      congr 1
      rw [List.filter_eq_nil_iff]
      intro g hgmem
      simp only [decide_eq_true_eq]
      intro hcontra
      exact hnda.1 (by rw [hid, ← hcontra] at *; exact List.mem_map_of_mem Feature.id hgmem)
    | succ n =>
      simp only [List.getElem?_cons_succ] at hg
      have hmem : x ∈ fids t := by
        rw [← hid]
        exact List.mem_map_of_mem Feature.id (List.getElem?_mem hg)
      rw [List.filter_cons, if_neg (by
        simp only [decide_eq_true_eq]
        intro hcontra
        exact hnda.1 (hcontra ▸ hmem))]
      exact ih hnda.2 hg

end NGD

namespace NGD

/-- Unfolding equation of flattenArea under a view of the area dict. -/
theorem flattenArea_view (acc : FlatAcc) (area : Dict) {san : Int}
    {fs : List Feature} {nreq : Int} (hv : AreaView area san fs nreq) :
    flattenArea acc area =
      match dedupLoop san (tagFeatures san fs) acc.fts acc.ids [] with
      | some (fts1, ids1, new_features) =>
        some { fts := fts1 ++ new_features, ids := ids1,
               numberOfRequests := acc.numberOfRequests + nreq,
               numberReturned := acc.numberReturned + (new_features.length : Int) }
      | none => none := by
  obtain ⟨h1, h2, h3⟩ := hv
  simp only [flattenArea, dpop, h1, h2, h3]

/-- The invariant each flattenArea step preserves: the seen ids are the
(duplicate-free) ids of the output features, and numberReturned counts the
output features. -/
theorem flattenArea_inv (acc acc1 : FlatAcc) (area : Dict)
    (h : flattenArea acc area = some acc1)
    (hids : acc.ids = fids acc.fts) (hnd : acc.ids.Nodup)
    (hnr : acc.numberReturned = (acc.fts.length : Int)) :
    acc1.ids = fids acc1.fts ∧ acc1.ids.Nodup ∧
    acc1.numberReturned = (acc1.fts.length : Int) := by
  rw [flattenArea] at h
  split at h
  next san hsan =>
    split at h
    next fs nreq hfs hnreq =>
      simp only [] at h
      split at h
      next fts1 ids1 new1 hded =>
        obtain rfl : _ = acc1 := by injection h
        obtain ⟨hf1, hi1, hn1, -⟩ :=
          dedupLoop_spec san (tagFeatures san fs) acc.fts acc.ids [] fts1 ids1 new1
            hded (by simpa [fids] using hids) hnd
        have hlen : fts1.length = acc.fts.length := by
          have := congrArg List.length hf1
          simpa [fids] using this
        refine ⟨?_, hn1, ?_⟩
        · rw [hi1, fids_append]
        · simp only [List.length_append]
          rw [hnr] at *
          push_cast
          omega
      next => exact absurd h (by simp)
    next => exact absurd h (by simp)
  next => exact absurd h (by simp)

/-- The loop invariant of flatten_search_areas. -/
theorem flattenAreasLoop_inv (areas : List Dict) :
    ∀ acc acc1, flattenAreasLoop acc areas = some acc1 →
    acc.ids = fids acc.fts → acc.ids.Nodup →
    acc.numberReturned = (acc.fts.length : Int) →
    acc1.ids = fids acc1.fts ∧ acc1.ids.Nodup ∧
    acc1.numberReturned = (acc1.fts.length : Int) := by
  induction areas with
  | nil =>
    intro acc acc1 h h1 h2 h3
    obtain rfl : acc = acc1 := by
      simpa [flattenAreasLoop] using h
    exact ⟨h1, h2, h3⟩
  | cons area rest ih =>
    intro acc acc1 h h1 h2 h3
    rw [flattenAreasLoop] at h
    split at h
    next acc2 hstep =>
      obtain ⟨g1, g2, g3⟩ := flattenArea_inv acc acc2 area hstep h1 h2 h3
      exact ih acc2 acc1 h g1 g2 g3
    next => exact absurd h (by simp)

/-- C9 core for geometry flattening: a successful flatten_search_areas output
has numberReturned equal to the length of its features, whose ids are
pairwise distinct. -/
theorem flatten_search_areas_inv (search_areas : List Dict) (now : String)
    (d : Dict) (h : flatten_search_areas search_areas now = some d) :
    ∃ fts nr, dget d "features" = some (.feats fts) ∧
      dget d "numberReturned" = some (.i nr) ∧
      nr = (fts.length : Int) ∧ (fids fts).Nodup := by
  rw [flatten_search_areas] at h
  split at h
  next acc hloop =>
    obtain rfl : _ = d := by injection h
    obtain ⟨g1, g2, g3⟩ := flattenAreasLoop_inv search_areas _ acc hloop rfl
      (by simp) (by simp)
    refine ⟨acc.fts, acc.numberReturned, rfl, rfl, g3, ?_⟩
    rw [← g1]
    exact g2
  next => exact absurd h (by simp)

end NGD

namespace NGD

/-- With a view of each area, the flatten loop sums numberOfRequests and its
id set is the union of the per-area id sets. -/
theorem flattenAreasLoop_views (areas : List Dict)
    (views : List (Int × List Feature × Int))
    (hfa : List.Forall₂ (fun a v => AreaView a v.1 v.2.1 v.2.2) areas views) :
    ∀ acc acc1,
    flattenAreasLoop acc areas = some acc1 →
    acc.ids = fids acc.fts → acc.ids.Nodup →
    acc1.numberOfRequests = acc.numberOfRequests + (views.map (fun v => v.2.2)).sum ∧
    (∀ x, x ∈ acc1.ids ↔ x ∈ acc.ids ∨ ∃ v ∈ views, x ∈ fids v.2.1) := by
  induction hfa with
  | nil =>
    intro acc acc1 h h1 h2
    obtain rfl : acc = acc1 := by simpa [flattenAreasLoop] using h
    exact ⟨by simp, fun x => by simp⟩
  | @cons area v rest restv hv hrest ih =>
    intro acc acc1 h h1 h2
    rw [flattenAreasLoop] at h
    split at h
    next acc2 hstep =>
      rw [flattenArea_view acc area hv] at hstep
      split at hstep
      next fts1 ids1 new1 hded =>
        obtain rfl : _ = acc2 := by injection hstep
        obtain ⟨hf1, hi1, hn1, hmem1⟩ :=
          dedupLoop_spec v.1 (tagFeatures v.1 v.2.1) acc.fts acc.ids [] fts1 ids1 new1
            hded (by simpa [fids] using h1) h2
        have hids2 : ids1 = fids (fts1 ++ new1) := by rw [fids_append, hi1]
        obtain ⟨ih1, ih2⟩ := ih _ acc1 h hids2 hn1
        constructor
        · rw [ih1]
          simp only [List.map_cons, List.sum_cons]
          omega
        · intro x
          rw [ih2 x]
          simp only []
          rw [hmem1 x]
          rw [fids_tagFeatures]
          constructor
          · rintro ((hx | hx) | hx)
            · exact Or.inl hx
            · exact Or.inr ⟨v, by simp, hx⟩
            · obtain ⟨w, hw, hwx⟩ := hx
              exact Or.inr ⟨w, by simp [hw], hwx⟩
          · rintro (hx | hx)
            · exact Or.inl (Or.inl hx)
            · obtain ⟨w, hw, hwx⟩ := hx
              rcases List.mem_cons.mp hw with hw1 | hw1
              · exact Or.inl (Or.inr (hw1 ▸ hwx))
              · exact Or.inr ⟨w, hw1, hwx⟩
      next => exact absurd hstep (by simp)
    next => exact absurd h (by simp)

end NGD

namespace NGD

/-- Re-tagging an already tagged feature list changes nothing. -/
theorem tagFeatures_retag (san : Int) (fs : List Feature) :
    (tagFeatures san fs).map
      (fun f => { f with searchAreaNumber := some (.one san) }) =
      tagFeatures san fs := by
  simp only [tagFeatures, List.map_map]
  rfl

/-- Processing a first area over an empty accumulator adds every feature
(when its ids are duplicate-free). -/
theorem dedupLoop_first_area (san : Int) (fs : List Feature)
    (hnd : (fids fs).Nodup) :
    dedupLoop san (tagFeatures san fs) [] [] [] =
      some ([], fids fs, tagFeatures san fs) := by
  rw [dedupLoop_all_new san (tagFeatures san fs) [] [] []
    (by simp) (by rw [fids_tagFeatures]; exact hnd)]
  rw [tagFeatures_retag]
  simp [fids_tagFeatures]

/-- C2 core: a feature id occurring in part 0 and part 1 ends up exactly once
in the flattened output, carrying searchAreaNumber [0, 1]. -/
theorem flatten_two_part_collision (d0 d1 : Dict) (fs0 fs1 : List Feature)
    (r0 r1 : Int) (x : Nat) (now : String)
    (hv0 : AreaView d0 0 fs0 r0) (hv1 : AreaView d1 1 fs1 r1)
    (hnd0 : (fids fs0).Nodup) (hnd1 : (fids fs1).Nodup)
    (hx0 : x ∈ fids fs0) (hx1 : x ∈ fids fs1) :
    ∃ out fts f1,
      flatten_search_areas [d0, d1] now = some out ∧
      dget out "features" = some (.feats fts) ∧
      fts.filter (fun g => g.id = x) = [f1] ∧
      f1.searchAreaNumber = some (.many [0, 1]) := by
  -- step 0: the first area fills the empty accumulator
  have hstep0 : flattenArea ⟨[], [], 0, 0⟩ d0 =
      some ⟨tagFeatures 0 fs0, fids fs0, 0 + r0,
            0 + ((tagFeatures 0 fs0).length : Int)⟩ := by
    rw [flattenArea_view ⟨[], [], 0, 0⟩ d0 hv0]
    rw [dedupLoop_first_area 0 fs0 hnd0]
    rfl
  -- the unique index of the colliding feature in the accumulated features
  obtain ⟨f0, hf0, hf0id⟩ := List.mem_map.mp hx0
  obtain ⟨j, hjlt, hjeq⟩ := List.getElem_of_mem hf0
  have hjget : (tagFeatures 0 fs0)[j]? =
      some { f0 with searchAreaNumber := some (.one 0),
                     propertiesSearchAreaNumber := some (.one 0) } := by
    rw [tagFeatures, List.getElem?_map, List.getElem?_eq_getElem hjlt, hjeq]
    rfl
  -- step 1: the second area collides on x
  have hids1 : fids fs0 = fids (tagFeatures 0 fs0) ++ fids ([] : List Feature) := by
    rw [fids_tagFeatures]
    simp [fids]
  have hsome : (dedupLoop 1 (tagFeatures 1 fs1) (tagFeatures 0 fs0)
      (fids fs0) []).isSome := by
    refine dedupLoop_succeeds 1 (tagFeatures 1 fs1) (tagFeatures 0 fs0) (fids fs0) []
      (fun f hf hfid => ?_) (by rw [fids_tagFeatures]; exact hnd1)
      (fun f hf => by simp [fids])
    rw [fids_tagFeatures]
    exact hfid
  obtain ⟨⟨fts1, ids1, new1⟩, hded1⟩ := Option.isSome_iff_exists.mp hsome
  have hcount : (fids (tagFeatures 1 fs1)).count
      ({ f0 with searchAreaNumber := some (SAN.one 0),
                 propertiesSearchAreaNumber := some (SAN.one 0) } : Feature).id = 1 := by
    rw [fids_tagFeatures]
    show (fids fs1).count f0.id = 1
    rw [hf0id]
    exact List.count_eq_one_of_mem hnd1 hx1
  have hupd := dedupLoop_collide_once 1 (tagFeatures 1 fs1) (tagFeatures 0 fs0)
    (fids fs0) [] fts1 ids1 new1 j _ hded1 hids1 hnd0 hjget hcount
  obtain ⟨hf1, hi1, hn1, -⟩ := dedupLoop_spec 1 (tagFeatures 1 fs1) (tagFeatures 0 fs0)
    (fids fs0) [] fts1 ids1 new1 hded1 hids1 hnd0
  have hstep1 : flattenArea ⟨tagFeatures 0 fs0, fids fs0, 0 + r0,
      0 + ((tagFeatures 0 fs0).length : Int)⟩ d1 =
      some ⟨fts1 ++ new1, ids1, 0 + r0 + r1,
            0 + ((tagFeatures 0 fs0).length : Int) + (new1.length : Int)⟩ := by
    rw [flattenArea_view _ d1 hv1]
    simp only [hded1]
  -- assemble the loop and the output dict
  have hloop : flattenAreasLoop ⟨[], [], 0, 0⟩ [d0, d1] =
      some ⟨fts1 ++ new1, ids1, 0 + r0 + r1,
            0 + ((tagFeatures 0 fs0).length : Int) + (new1.length : Int)⟩ := by
    simp only [flattenAreasLoop, hstep0, hstep1]
  have hflat : flatten_search_areas [d0, d1] now =
      some [("type", .s "FeatureCollection"),
            ("numberOfRequests", .i (0 + r0 + r1)),
            ("numberReturned",
              .i (0 + ((tagFeatures 0 fs0).length : Int) + (new1.length : Int))),
            ("features", .feats (fts1 ++ new1)),
            ("timeStamp", .s now)] := by
    rw [flatten_search_areas, hloop]
  refine ⟨_, fts1 ++ new1,
    { f0 with searchAreaNumber := some (.many [0, 1]),
              propertiesSearchAreaNumber := some (.one 0) }, hflat, rfl, ?_, rfl⟩
  -- the filter isolates the promoted entry
  have hndf1 : (fids fts1).Nodup := by
    rw [hi1] at hn1
    exact (List.nodup_append.mp hn1).1
  have hf1id : ({ f0 with searchAreaNumber := some (SAN.many [0, 1]),
                          propertiesSearchAreaNumber := some (SAN.one 0) } :
      Feature).id = x := hf0id
  have hfilter1 : fts1.filter (fun g => g.id = x) =
      [{ f0 with searchAreaNumber := some (.many [0, 1]),
                 propertiesSearchAreaNumber := some (.one 0) }] := by
    exact filter_id_single hndf1 hupd hf1id
  have hxnew : x ∉ fids new1 := by
    intro hmem
    rw [hi1] at hn1
    have hxin : x ∈ fids fts1 := by
      rw [hf1, fids_tagFeatures]
      exact hx0
    exact (List.nodup_append.mp hn1).2.2 hxin hmem
  have hfilter2 : new1.filter (fun g => g.id = x) = [] := by
    rw [List.filter_eq_nil_iff]
    intro g hg
    simp only [decide_eq_true_eq]
    intro hc
    exact hxnew (hc ▸ List.mem_map_of_mem Feature.id hg)
  rw [List.filter_append, hfilter1, hfilter2]
  simp

end NGD

namespace NGD

/-- C2 counts core: with a view of each area, a successful flatten output
sums numberOfRequests over the parts, and numberReturned counts exactly the
distinct feature ids (each id once, however many parts returned it). -/
theorem flatten_views_counts (areas : List Dict)
    (views : List (Int × List Feature × Int)) (now : String) (out : Dict)
    (hfa : List.Forall₂ (fun a v => AreaView a v.1 v.2.1 v.2.2) areas views)
    (h : flatten_search_areas areas now = some out) :
    dget out "numberOfRequests" = some (.i ((views.map (fun v => v.2.2)).sum)) ∧
    ∃ fts nr, dget out "features" = some (.feats fts) ∧
      dget out "numberReturned" = some (.i nr) ∧ nr = (fts.length : Int) ∧
      (fids fts).Nodup ∧
      (∀ x, x ∈ fids fts ↔ ∃ v ∈ views, x ∈ fids v.2.1) := by
  rw [flatten_search_areas] at h
  split at h
  next acc hloop =>
    obtain rfl : _ = out := by injection h
    obtain ⟨hsum, hmem⟩ := flattenAreasLoop_views areas views hfa ⟨[], [], 0, 0⟩ acc
      hloop rfl (by simp)
    obtain ⟨hids, hnd, hnr⟩ := flattenAreasLoop_inv areas ⟨[], [], 0, 0⟩ acc hloop rfl
      (by simp) (by simp)
    have hsum1 : acc.numberOfRequests = (views.map (fun v => v.2.2)).sum := by
      rw [hsum]
      simp
    refine ⟨?_, acc.fts, acc.numberReturned, rfl, rfl, hnr, by rw [← hids]; exact hnd, ?_⟩
    · show some (GVal.i acc.numberOfRequests) = _
      rw [hsum1]
    · intro x
      rw [← hids]
      rw [hmem x]
      simp
  next => exact absurd h (by simp)

end NGD

namespace NGD

/-- C2: in the flattened geometry fan-out, a feature id returned by part 0
and part 1 appears exactly once, its searchAreaNumber promoted from the
scalar 0 to the list [0, 1]; numberReturned counts only first-occurrence
features (one per distinct id) and numberOfRequests is the sum over the
parts. -/
theorem c2_flatten_collision_and_counts :
    (∀ (d0 d1 : Dict) (fs0 fs1 : List Feature) (r0 r1 : Int) (x : Nat) (now : String),
      AreaView d0 0 fs0 r0 → AreaView d1 1 fs1 r1 →
      (fids fs0).Nodup → (fids fs1).Nodup →
      x ∈ fids fs0 → x ∈ fids fs1 →
      ∃ out fts f1,
        flatten_search_areas [d0, d1] now = some out ∧
        dget out "features" = some (.feats fts) ∧
        fts.filter (fun g => g.id = x) = [f1] ∧
        f1.searchAreaNumber = some (.many [0, 1])) ∧
    (∀ (areas : List Dict) (views : List (Int × List Feature × Int))
       (now : String) (out : Dict),
      List.Forall₂ (fun a v => AreaView a v.1 v.2.1 v.2.2) areas views →
      flatten_search_areas areas now = some out →
      dget out "numberOfRequests" = some (.i ((views.map (fun v => v.2.2)).sum)) ∧
      ∃ fts nr, dget out "features" = some (.feats fts) ∧
        dget out "numberReturned" = some (.i nr) ∧ nr = (fts.length : Int) ∧
        (fids fts).Nodup ∧
        (∀ x, x ∈ fids fts ↔ ∃ v ∈ views, x ∈ fids v.2.1)) :=
  ⟨flatten_two_part_collision, flatten_views_counts⟩

/-- Concrete areas for the C2 witness: part 0 returns ids 5 and 7, part 1
returns ids 7 and 9. -/
def c2Area0 : Dict :=
  [("searchAreaNumber", .i 0), ("numberOfRequests", .i 2),
   ("numberReturned", .i 2), ("features", .feats [{ id := 5 }, { id := 7 }])]

def c2Area1 : Dict :=
  [("searchAreaNumber", .i 1), ("numberOfRequests", .i 3),
   ("numberReturned", .i 2), ("features", .feats [{ id := 7 }, { id := 9 }])]

/-- C2 witness: both conjuncts applied at the concrete two-part example with
the shared id 7. -/
theorem c2_flatten_collision_and_counts_witness :
    (∃ out fts f1,
      flatten_search_areas [c2Area0, c2Area1] "t0" = some out ∧
      dget out "features" = some (.feats fts) ∧
      fts.filter (fun g => g.id = 7) = [f1] ∧
      f1.searchAreaNumber = some (.many [0, 1])) ∧
    (dget [("type", GVal.s "FeatureCollection"), ("numberOfRequests", GVal.i 5),
           ("numberReturned", GVal.i 3),
           ("features", GVal.feats
             [{ id := 5, searchAreaNumber := some (.one 0),
                propertiesSearchAreaNumber := some (.one 0) },
              { id := 7, searchAreaNumber := some (.many [0, 1]),
                propertiesSearchAreaNumber := some (.one 0) },
              { id := 9, searchAreaNumber := some (.one 1),
                propertiesSearchAreaNumber := some (.one 1) }]),
           ("timeStamp", GVal.s "t0")]
      "numberOfRequests" = some (.i (([(0, [({ id := 5 } : Feature), { id := 7 }], (2 : Int)),
        (1, [({ id := 7 } : Feature), { id := 9 }], 3)].map (fun v => v.2.2)).sum))) :=
  ⟨c2_flatten_collision_and_counts.1 c2Area0 c2Area1
      [{ id := 5 }, { id := 7 }] [{ id := 7 }, { id := 9 }] 2 3 7 "t0"
      ⟨rfl, rfl, rfl⟩ ⟨rfl, rfl, rfl⟩ (by decide) (by decide) (by decide) (by decide),
   (c2_flatten_collision_and_counts.2 [c2Area0, c2Area1]
      [(0, [{ id := 5 }, { id := 7 }], 2), (1, [{ id := 7 }, { id := 9 }], 3)] "t0" _
      (List.Forall₂.cons ⟨rfl, rfl, rfl⟩
        (List.Forall₂.cons ⟨rfl, rfl, rfl⟩ List.Forall₂.nil)) rfl).1⟩

end NGD

namespace NGD

/-- errCheck reports err exactly on the claims' ErrorPayload shape. -/
theorem errCheck_eq_err_iff (d : Dict) : errCheck d = .err ↔ IsErrPayload d := by
  constructor
  · intro h
    rw [errCheck] at h
    split at h
    · exact absurd h (by simp)
    next c heq =>
      by_cases h0 : c = 0
      · rw [if_pos h0] at h
        exact absurd h (by simp)
      · rw [if_neg h0] at h
        by_cases h4 : 400 ≤ c
        · exact ⟨c, heq, h4⟩
        · rw [if_neg h4] at h
          exact absurd h (by simp)
    next v heq =>
      split at h <;> exact absurd h (by simp)
  · rintro ⟨c, heq, h4⟩
    rw [errCheck, heq]
    have h0 : ¬ c = 0 := by omega
    simp [h0, h4]

/-- The pagination loop stops at the first inner error and returns exactly
that response. -/
theorem limitLoop_short_circuit (inner : Dict → Dict) (request_limit limit : Option Int)
    (batch : Option (Int × Int)) (collection : Option String) (now : String) :
    ∀ (fuel : Nat) (rc off : Int) (fs : List Feature) (qp : Dict)
      (tr : List Dict) (res : LimitRes),
    limitLoop inner request_limit limit batch collection now fuel rc off fs qp = (tr, res) →
    ∀ (i : Nat) (hi : i < tr.length), errCheck (inner tr[i]) = .err →
    i = tr.length - 1 ∧ res = .ret (inner tr[i]) := by
  intro fuel
  induction fuel with
  | zero =>
    intro rc off fs qp tr res h i hi herr
    simp only [limitLoop, Prod.mk.injEq] at h
    obtain ⟨rfl, rfl⟩ := h
    simp at hi
  | succ fuel ih =>
    intro rc off fs qp tr res h i hi herr
    simp only [limitLoop] at h
    split at h
    · split at h
      next hcrash =>
        rw [Prod.mk.injEq] at h
        obtain ⟨rfl, rfl⟩ := h
        obtain rfl : i = 0 := by simp only [List.length_cons, List.length_nil] at hi; omega
        simp only [List.getElem_cons_zero] at herr
        rw [herr] at hcrash
        exact absurd hcrash (by simp)
      next herrb =>
        rw [Prod.mk.injEq] at h
        obtain ⟨rfl, rfl⟩ := h
        obtain rfl : i = 0 := by simp only [List.length_cons, List.length_nil] at hi; omega
        exact ⟨by simp, rfl⟩
      next hpass =>
        split at h
        next ffs hfeats =>
          split at h
          next rels hlinks =>
            split at h
            next hnext =>
              rw [Prod.mk.injEq] at h
              obtain ⟨rfl, rfl⟩ := h
              cases i with
              | zero =>
                simp only [List.getElem_cons_zero] at herr
                rw [herr] at hpass
                exact absurd hpass (by simp)
              | succ i1 =>
                simp only [List.getElem_cons_succ] at herr
                have hi1 : i1 <
                    (limitLoop inner request_limit limit batch collection now
                      fuel (rc + 1) (off + 100) (fs ++ ffs)
                      (nextQueryParams batch rc off qp)).1.length := by
                  simpa using hi
                obtain ⟨hlast, hres⟩ := ih _ _ _ _ _ _ rfl i1 hi1 herr
                constructor
                · simp only [List.length_cons]
                  omega
                · simpa using hres
            next hnonext =>
              rw [Prod.mk.injEq] at h
              obtain ⟨rfl, rfl⟩ := h
              obtain rfl : i = 0 := by simp only [List.length_cons, List.length_nil] at hi; omega
              simp only [List.getElem_cons_zero] at herr
              rw [herr] at hpass
              exact absurd hpass (by simp)
          next hbad =>
            rw [Prod.mk.injEq] at h
            obtain ⟨rfl, rfl⟩ := h
            obtain rfl : i = 0 := by simp only [List.length_cons, List.length_nil] at hi; omega
            simp only [List.getElem_cons_zero] at herr
            rw [herr] at hpass
            exact absurd hpass (by simp)
        next hbad =>
          rw [Prod.mk.injEq] at h
          obtain ⟨rfl, rfl⟩ := h
          obtain rfl : i = 0 := by simp only [List.length_cons, List.length_nil] at hi; omega
          simp only [List.getElem_cons_zero] at herr
          rw [herr] at hpass
          exact absurd hpass (by simp)
    · rw [Prod.mk.injEq] at h
      obtain ⟨rfl, rfl⟩ := h
      simp at hi

end NGD

namespace NGD

/-- The geometry fan-out loop stops at the first inner error payload and
hands exactly that response out. -/
theorem geomLoop_short_circuit (inner : Geom → Dict) :
    ∀ (gs : List Geom) (idx : Nat) (tr : List Geom) (out : GeomLoopOut),
    geomLoop inner gs idx = (tr, out) →
    ∀ (i : Nat) (hi : i < tr.length), errCheck (inner tr[i]) = .err →
    i = tr.length - 1 ∧ out = .errRet (inner tr[i]) := by
  intro gs
  induction gs with
  | nil =>
    intro idx tr out h i hi herr
    simp only [geomLoop, Prod.mk.injEq] at h
    obtain ⟨rfl, rfl⟩ := h
    simp at hi
  | cons g rest ih =>
    intro idx tr out h i hi herr
    simp only [geomLoop] at h
    split at h
    next hcrash =>
      rw [Prod.mk.injEq] at h
      obtain ⟨rfl, rfl⟩ := h
      obtain rfl : i = 0 := by simp only [List.length_cons, List.length_nil] at hi; omega
      simp only [List.getElem_cons_zero] at herr
      rw [herr] at hcrash
      exact absurd hcrash (by simp)
    next herrb =>
      rw [Prod.mk.injEq] at h
      obtain ⟨rfl, rfl⟩ := h
      obtain rfl : i = 0 := by simp only [List.length_cons, List.length_nil] at hi; omega
      exact ⟨by simp, rfl⟩
    next hpass =>
      rw [Prod.mk.injEq] at h
      obtain ⟨rfl, rfl⟩ := h
      cases i with
      | zero =>
        simp only [List.getElem_cons_zero] at herr
        rw [herr] at hpass
        exact absurd hpass (by simp)
      | succ i1 =>
        simp only [List.getElem_cons_succ] at herr
        have hi1 : i1 < (geomLoop inner rest (idx + 1)).1.length := by simpa using hi
        obtain ⟨hlast, hres⟩ := ih (idx + 1) _ _ rfl i1 hi1 herr
        refine ⟨by simp only [List.length_cons]; omega, ?_⟩
        simp only [List.getElem_cons_succ]
        rw [hres]

/-- When the geometry loop yields the per-part results, each inner response
passed the error check. -/
theorem geomLoop_errRet (inner : Geom → Dict) :
    ∀ (gs : List Geom) (idx : Nat) (tr : List Geom) (d : Dict),
    geomLoop inner gs idx = (tr, .errRet d) →
    errCheck d = .err := by
  intro gs
  induction gs with
  | nil =>
    intro idx tr d h
    simp only [geomLoop, Prod.mk.injEq] at h
    exact absurd h.2 (by simp)
  | cons g rest ih =>
    intro idx tr d h
    simp only [geomLoop] at h
    split at h
    next hcrash =>
      rw [Prod.mk.injEq] at h
      exact absurd h.2 (by simp)
    next herrb =>
      rw [Prod.mk.injEq] at h
      obtain rfl : inner g = d := by
        have := h.2
        injection this
      exact herrb
    next hpass =>
      rw [Prod.mk.injEq] at h
      have h2 := h.2
      cases hx : (geomLoop inner rest (idx + 1)).2 with
      | areas as => rw [hx] at h2; exact absurd h2 (by simp)
      | errRet d2 =>
        rw [hx] at h2
        obtain rfl : d2 = d := by injection h2
        exact ih (idx + 1) _ _ (by rw [← hx])
      | crash => rw [hx] at h2; exact absurd h2 (by simp)

end NGD

namespace NGD

/-- An error payload never passes the collection fan-out checks. -/
theorem mcCheck_ne_pass_of_err {d : Dict} (h : IsErrPayload d) :
    mcCheck d ≠ .pass_ := by
  obtain ⟨c, heq, h4⟩ := h
  rw [mcCheck, heq]
  show (match GVal.i c with
    | .i c => _
    | _ => CheckRes.crashC) ≠ CheckRes.pass_
  by_cases h404 : c = 404
  · subst h404
    simp only [if_pos rfl]
    cases descrMember (dget d "description") with
    | none => simp
    | some b => cases b <;> simp
  · simp [h404, h4]

/-- An error payload whose 404 description is membership-testable makes the
collection fan-out return it. -/
theorem mcCheck_retn_of_err {d : Dict} (h : IsErrPayload d)
    (hd : Descr404Testable d) : mcCheck d = .retn := by
  obtain ⟨c, heq, h4⟩ := h
  rw [mcCheck, heq]
  show (match GVal.i c with
    | .i c => _
    | _ => CheckRes.crashC) = CheckRes.retn
  by_cases h404 : c = 404
  · subst h404
    simp only [if_pos rfl]
    cases hdm : descrMember (dget d "description") with
    | none => exact absurd hdm (hd heq)
    | some b => cases b <;> simp [h4]
  · simp [h404, h4]

/-- The collection fan-out loop stops at the first response that fails a
check, and returns exactly the response when the check said return. -/
theorem mcLoop_short_circuit (inner : GVal → Dict) :
    ∀ (cols : List GVal) (tr : List GVal) (out : McLoopOut),
    mcLoop inner cols = (tr, out) →
    ∀ (i : Nat) (hi : i < tr.length), mcCheck (inner tr[i]) ≠ .pass_ →
    i = tr.length - 1 ∧
      (mcCheck (inner tr[i]) = .retn → out = .errRet (inner tr[i])) := by
  intro cols
  induction cols with
  | nil =>
    intro tr out h i hi herr
    simp only [mcLoop, Prod.mk.injEq] at h
    obtain ⟨rfl, rfl⟩ := h
    simp at hi
  | cons c rest ih =>
    intro tr out h i hi herr
    simp only [mcLoop] at h
    split at h
    next hretn =>
      rw [Prod.mk.injEq] at h
      obtain ⟨rfl, rfl⟩ := h
      obtain rfl : i = 0 := by simp only [List.length_cons, List.length_nil] at hi; omega
      exact ⟨by simp, fun _ => rfl⟩
    next hcrash =>
      rw [Prod.mk.injEq] at h
      obtain ⟨rfl, rfl⟩ := h
      obtain rfl : i = 0 := by simp only [List.length_cons, List.length_nil] at hi; omega
      refine ⟨by simp, fun hr => ?_⟩
      simp only [List.getElem_cons_zero] at hr
      rw [hr] at hcrash
      exact absurd hcrash (by simp)
    next hpass =>
      rw [Prod.mk.injEq] at h
      obtain ⟨rfl, rfl⟩ := h
      cases i with
      | zero =>
        simp only [List.getElem_cons_zero] at herr
        exact absurd hpass herr
      | succ i1 =>
        simp only [List.getElem_cons_succ] at herr
        have hi1 : i1 < (mcLoop inner rest).1.length := by simpa using hi
        obtain ⟨hlast, hres⟩ := ih _ _ rfl i1 hi1 herr
        refine ⟨by simp only [List.length_cons]; omega, fun hr => ?_⟩
        simp only [List.getElem_cons_succ] at hr ⊢
        rw [hres hr]

/-- When the per-collection loop returns a response, that response failed a
check as an error return. -/
theorem mcLoop_errRet (inner : GVal → Dict) :
    ∀ (cols : List GVal) (tr : List GVal) (d : Dict),
    mcLoop inner cols = (tr, .errRet d) →
    mcCheck d = .retn := by
  intro cols
  induction cols with
  | nil =>
    intro tr d h
    simp only [mcLoop, Prod.mk.injEq] at h
    exact absurd h.2 (by simp)
  | cons c rest ih =>
    intro tr d h
    simp only [mcLoop] at h
    split at h
    next hretn =>
      rw [Prod.mk.injEq] at h
      obtain rfl : inner c = d := by
        have := h.2
        injection this
      exact hretn
    next hcrash =>
      rw [Prod.mk.injEq] at h
      exact absurd h.2 (by simp)
    next hpass =>
      rw [Prod.mk.injEq] at h
      have h2 := h.2
      cases hx : (mcLoop inner rest).2 with
      | results rs => rw [hx] at h2; exact absurd h2 (by simp)
      | errRet d2 =>
        rw [hx] at h2
        obtain rfl : d2 = d := by injection h2
        exact ih _ _ (by rw [← hx])
      | crash => rw [hx] at h2; exact absurd h2 (by simp)

/-- Each recorded per-collection result is the response of the wrapped
component for that collection value. -/
theorem mcLoop_results (inner : GVal → Dict) :
    ∀ (cols : List GVal) (tr : List GVal) (rs : List (GVal × Dict)),
    mcLoop inner cols = (tr, .results rs) →
    ∀ p ∈ rs, p.2 = inner p.1 := by
  intro cols
  induction cols with
  | nil =>
    intro tr rs h p hp
    simp only [mcLoop, Prod.mk.injEq] at h
    obtain ⟨-, h2⟩ := h
    obtain rfl : ([] : List (GVal × Dict)) = rs := by injection h2
    simp at hp
  | cons c rest ih =>
    intro tr rs h p hp
    simp only [mcLoop] at h
    split at h
    next => rw [Prod.mk.injEq] at h; exact absurd h.2 (by simp)
    next => rw [Prod.mk.injEq] at h; exact absurd h.2 (by simp)
    next hpass =>
      rw [Prod.mk.injEq] at h
      have h2 := h.2
      cases hx : (mcLoop inner rest).2 with
      | results rs2 =>
        rw [hx] at h2
        obtain rfl : (c, inner c) :: rs2 = rs := by injection h2
        rcases List.mem_cons.mp hp with h1 | h1
        · rw [h1]
        · exact ih _ _ (by rw [← hx]) p h1
      | errRet d2 => rw [hx] at h2; exact absurd h2 (by simp)
      | crash => rw [hx] at h2; exact absurd h2 (by simp)

end NGD

namespace NGD

/-- C3 counterexample: an inner call of the Collection Fan-Out returning the
ErrorPayload {code: 404} (no description) makes the coordinator raise a
TypeError instead of returning that exact payload. -/
theorem c3_mc_404_without_description_raises :
    errCheck [("code", GVal.i 404)] = .err ∧
    multiple_collections_extension (fun _ _ => [("code", GVal.i 404)]) []
        ["c1", "c2"] false false =
      ([GVal.s "c1"], .raised "TypeError") :=
  ⟨rfl, rfl⟩

/-- C3 amended: on any inner ErrorPayload (code >= 400) every coordinator
stops fanning out at that call; Pagination and Geometry Fan-Out return the
exact payload unchanged, and Collection Fan-Out does too provided a payload
with code 404 carries a membership-testable description (otherwise it raises
TypeError instead). -/
theorem c3_error_short_circuit :
    (∀ (inner : Dict → Dict) (request_limit limit : Option Int)
       (query_params : Option Dict) (collection : Option String) (now : String)
       (fuel : Nat) (tr : List Dict) (res : LimitRes),
      limit_extension inner request_limit limit query_params collection now fuel =
        (tr, res) →
      ∀ (i : Nat) (hi : i < tr.length), IsErrPayload (inner tr[i]) →
      i = tr.length - 1 ∧ res = .ret (inner tr[i])) ∧
    (∀ (inner : Geom → Dict) (wkt : WktInput) (hier : Bool) (now : String)
       (tr : List Geom) (res : GeomRes),
      multigeometry_search_extension inner wkt hier now = (tr, res) →
      ∀ (i : Nat) (hi : i < tr.length), IsErrPayload (inner tr[i]) →
      i = tr.length - 1 ∧ res = .ret (inner tr[i])) ∧
    (∀ (inner : Bool → GVal → Dict) (lookup : List (String × String))
       (collection : List String) (hier ul : Bool)
       (tr : List GVal) (res : McRes),
      multiple_collections_extension inner lookup collection hier ul = (tr, res) →
      ∀ (i : Nat) (hi : i < tr.length), IsErrPayload (inner hier tr[i]) →
      i = tr.length - 1 ∧
        (Descr404Testable (inner hier tr[i]) → res = .ret (inner hier tr[i]))) := by
  refine ⟨?_, ?_, ?_⟩
  · -- pagination
    intro inner request_limit limit query_params collection now fuel tr res h i hi herrP
    have herr : errCheck (inner tr[i]) = .err := (errCheck_eq_err_iff _).mpr herrP
    simp only [limit_extension] at h
    split at h
    · rw [Prod.mk.injEq] at h
      obtain ⟨rfl, rfl⟩ := h
      simp at hi
    · split at h
      · rw [Prod.mk.injEq] at h
        obtain ⟨rfl, rfl⟩ := h
        simp at hi
      · exact limitLoop_short_circuit inner request_limit limit _ collection now
          fuel 0 0 [] _ tr res h i hi herr
  · -- geometry fan-out
    intro inner wkt hier now tr res h i hi herrP
    have herr : errCheck (inner tr[i]) = .err := (errCheck_eq_err_iff _).mpr herrP
    cases wkt with
    | invalid =>
      simp only [multigeometry_search_extension, Prod.mk.injEq] at h
      obtain ⟨rfl, rfl⟩ := h
      simp at hi
    | ok g =>
      simp only [multigeometry_search_extension] at h
      split at h
      next tr1 d heq =>
        rw [Prod.mk.injEq] at h
        obtain ⟨rfl, rfl⟩ := h
        obtain ⟨hlast, hout⟩ := geomLoop_short_circuit inner _ 0 tr1 _ heq i hi herr
        obtain rfl : d = inner tr1[i] := by injection hout
        exact ⟨hlast, rfl⟩
      next tr1 heq =>
        rw [Prod.mk.injEq] at h
        obtain ⟨rfl, rfl⟩ := h
        obtain ⟨-, hout⟩ := geomLoop_short_circuit inner _ 0 tr1 _ heq i hi herr
        exact absurd hout (by simp)
      next tr1 areas heq =>
        split at h
        next =>
          rw [Prod.mk.injEq] at h
          obtain ⟨rfl, -⟩ := h
          obtain ⟨-, hout⟩ := geomLoop_short_circuit inner _ 0 tr1 _ heq i hi herr
          exact absurd hout (by simp)
        next =>
          split at h
          next d2 hflat =>
            rw [Prod.mk.injEq] at h
            obtain ⟨rfl, -⟩ := h
            obtain ⟨-, hout⟩ := geomLoop_short_circuit inner _ 0 tr1 _ heq i hi herr
            exact absurd hout (by simp)
          next hflat =>
            rw [Prod.mk.injEq] at h
            obtain ⟨rfl, -⟩ := h
            obtain ⟨-, hout⟩ := geomLoop_short_circuit inner _ 0 tr1 _ heq i hi herr
            exact absurd hout (by simp)
  · -- collection fan-out
    intro inner lookup collection hier ul tr res h i hi herrP
    have hnp : mcCheck (inner hier tr[i]) ≠ .pass_ := mcCheck_ne_pass_of_err herrP
    simp only [multiple_collections_extension] at h
    split at h
    next tr1 d heq =>
      rw [Prod.mk.injEq] at h
      obtain ⟨rfl, rfl⟩ := h
      obtain ⟨hlast, hout⟩ := mcLoop_short_circuit (inner hier) _ tr1 _ heq i hi hnp
      refine ⟨hlast, fun htest => ?_⟩
      obtain rfl : d = inner hier tr1[i] := by
        have := hout (mcCheck_retn_of_err herrP htest)
        injection this
      rfl
    next tr1 heq =>
      rw [Prod.mk.injEq] at h
      obtain ⟨rfl, rfl⟩ := h
      obtain ⟨hlast, hout⟩ := mcLoop_short_circuit (inner hier) _ tr1 _ heq i hi hnp
      refine ⟨hlast, fun htest => ?_⟩
      exact absurd (hout (mcCheck_retn_of_err herrP htest)) (by simp)
    next tr1 rs heq =>
      split at h
      next =>
        rw [Prod.mk.injEq] at h
        obtain ⟨rfl, -⟩ := h
        obtain ⟨hlast, hout⟩ := mcLoop_short_circuit (inner hier) _ tr1 _ heq i hi hnp
        refine ⟨hlast, fun htest => ?_⟩
        exact absurd (hout (mcCheck_retn_of_err herrP htest)) (by simp)
      next =>
        split at h
        next g2 hflat =>
          rw [Prod.mk.injEq] at h
          obtain ⟨rfl, -⟩ := h
          obtain ⟨hlast, hout⟩ := mcLoop_short_circuit (inner hier) _ tr1 _ heq i hi hnp
          refine ⟨hlast, fun htest => ?_⟩
          exact absurd (hout (mcCheck_retn_of_err herrP htest)) (by simp)
        next hflat =>
          rw [Prod.mk.injEq] at h
          obtain ⟨rfl, -⟩ := h
          obtain ⟨hlast, hout⟩ := mcLoop_short_circuit (inner hier) _ tr1 _ heq i hi hnp
          refine ⟨hlast, fun htest => ?_⟩
          exact absurd (hout (mcCheck_retn_of_err herrP htest)) (by simp)

/-- C3 witness: a concrete upstream erroring with code 503 on the second
page: the pagination coordinator returns that payload unchanged as the last
of its two calls. -/
theorem c3_error_short_circuit_witness :
    (limit_extension c3Upstream (some 50) none none none "t0" 10).2 =
      .ret [("code", .i 503), ("description", .s "upstream down")] :=
  (c3_error_short_circuit.1 c3Upstream (some 50) none none none "t0" 10 _ _ rfl 1
    (by decide) ⟨503, by decide, by decide⟩).2

end NGD

namespace NGD

/-- Every dict the pagination loop returns is an error payload or carries
numberReturned equal to the length of its features list. -/
theorem limitLoop_ret_inv (inner : Dict → Dict) (request_limit limit : Option Int)
    (batch : Option (Int × Int)) (collection : Option String) (now : String) :
    ∀ (fuel : Nat) (rc off : Int) (fs : List Feature) (qp : Dict)
      (tr : List Dict) (d : Dict),
    limitLoop inner request_limit limit batch collection now fuel rc off fs qp =
      (tr, .ret d) →
    errCheck d = .err ∨
    ∃ fts, dget d "features" = some (.feats fts) ∧
      dget d "numberReturned" = some (.i (fts.length : Int)) := by
  intro fuel
  induction fuel with
  | zero =>
    intro rc off fs qp tr d h
    simp only [limitLoop, Prod.mk.injEq] at h
    exact absurd h.2 (by simp)
  | succ fuel ih =>
    intro rc off fs qp tr d h
    simp only [limitLoop] at h
    split at h
    · split at h
      next hcrash =>
        rw [Prod.mk.injEq] at h
        exact absurd h.2 (by simp)
      next herrb =>
        rw [Prod.mk.injEq] at h
        obtain rfl : inner (nextQueryParams batch rc off qp) = d := by
          have := h.2
          injection this
        exact Or.inl herrb
      next hpass =>
        split at h
        next ffs hfeats =>
          split at h
          next rels hlinks =>
            split at h
            next hnext =>
              rw [Prod.mk.injEq] at h
              have h2 := h.2
              exact ih _ _ _ _ _ d (by rw [← h2])
            next hnonext =>
              rw [Prod.mk.injEq] at h
              obtain rfl : mkGeojson (rc + 1) (fs ++ ffs) collection now = d := by
                have := h.2
                injection this
              exact Or.inr ⟨fs ++ ffs, rfl, rfl⟩
          next =>
            rw [Prod.mk.injEq] at h
            exact absurd h.2 (by simp)
        next =>
          rw [Prod.mk.injEq] at h
          exact absurd h.2 (by simp)
    · rw [Prod.mk.injEq] at h
      obtain rfl : mkGeojson rc fs collection now = d := by
        have := h.2
        injection this
      exact Or.inr ⟨fs, rfl, rfl⟩

/-- The collection flattening loop preserves numberReturned = feature count
whenever every child satisfies it. -/
theorem mcFlattenLoop_inv :
    ∀ (rs : List (GVal × Dict)) (acc accN : McFlat),
    mcFlattenLoop acc rs = some accN →
    (∀ p ∈ rs, ChildCountOK p.2) →
    acc.numberReturned = (acc.features.length : Int) →
    accN.numberReturned = (accN.features.length : Int) := by
  intro rs
  induction rs with
  | nil =>
    intro acc accN h hok hinv
    obtain rfl : acc = accN := by
      simpa [mcFlattenLoop] using h
    exact hinv
  | cons p rest ih =>
    intro acc accN h hok hinv
    obtain ⟨col, d⟩ := p
    simp only [mcFlattenLoop] at h
    split at h
    next fs nor nr hfeats hnor hnr =>
      refine ih _ accN h (fun q hq => hok q (by simp [hq])) ?_
      have hlen : nr = (fs.length : Int) :=
        hok (col, d) (by simp) fs nr hfeats hnr
      simp only [List.length_append]
      rw [hinv, hlen]
      push_cast
      omega
    next => exact absurd h (by simp)

end NGD

namespace NGD

/-- C9: every successful ResultSet of the Pagination Coordinator or the
flattened Geometry Fan-Out has numberReturned equal to its feature count;
the flattened Geometry Fan-Out also has pairwise distinct feature ids; and
the flattened Collection Fan-Out preserves the count equality whenever every
per-collection child satisfies it. -/
theorem c9_result_set_invariants :
    (∀ (inner : Dict → Dict) (request_limit limit : Option Int)
       (query_params : Option Dict) (collection : Option String) (now : String)
       (fuel : Nat) (tr : List Dict) (d : Dict),
      limit_extension inner request_limit limit query_params collection now fuel =
        (tr, .ret d) →
      errCheck d = .err ∨
      ∃ fts, dget d "features" = some (.feats fts) ∧
        dget d "numberReturned" = some (.i (fts.length : Int))) ∧
    (∀ (inner : Geom → Dict) (wkt : WktInput) (hier : Bool) (now : String)
       (tr : List Geom) (d : Dict),
      multigeometry_search_extension inner wkt hier now = (tr, .ret d) →
      errCheck d = .err ∨
      ∃ fts nr, dget d "features" = some (.feats fts) ∧
        dget d "numberReturned" = some (.i nr) ∧ nr = (fts.length : Int) ∧
        (fids fts).Nodup) ∧
    (∀ (inner : Bool → GVal → Dict) (lookup : List (String × String))
       (collection : List String) (hier ul : Bool)
       (tr : List GVal) (g : McFlat),
      multiple_collections_extension inner lookup collection hier ul = (tr, .flat g) →
      (∀ (b : Bool) (c : GVal), ChildCountOK (inner b c)) →
      g.numberReturned = (g.features.length : Int)) := by
  refine ⟨?_, ?_, ?_⟩
  · intro inner request_limit limit query_params collection now fuel tr d h
    simp only [limit_extension] at h
    split at h
    · rw [Prod.mk.injEq] at h
      obtain rfl : offsetErrorDict = d := by
        have := h.2
        injection this
      exact Or.inl rfl
    · split at h
      · rw [Prod.mk.injEq] at h
        exact absurd h.2 (by simp)
      · exact limitLoop_ret_inv inner request_limit limit _ collection now fuel
          0 0 [] _ tr d h
  · intro inner wkt hier now tr d h
    cases wkt with
    | invalid =>
      simp only [multigeometry_search_extension, Prod.mk.injEq] at h
      obtain rfl : invalidGeometryDict = d := by
        have := h.2
        injection this
      exact Or.inl rfl
    | ok geo =>
      simp only [multigeometry_search_extension] at h
      split at h
      next tr1 d2 heq =>
        rw [Prod.mk.injEq] at h
        obtain rfl : d2 = d := by
          have := h.2
          injection this
        exact Or.inl (geomLoop_errRet inner _ 0 tr1 d2 heq)
      next tr1 heq =>
        rw [Prod.mk.injEq] at h
        exact absurd h.2 (by simp)
      next tr1 areas heq =>
        split at h
        next =>
          rw [Prod.mk.injEq] at h
          exact absurd h.2 (by simp)
        next =>
          split at h
          next d2 hflat =>
            rw [Prod.mk.injEq] at h
            obtain rfl : d2 = d := by
              have := h.2
              injection this
            obtain ⟨fts, nr, h1, h2, h3, h4⟩ := flatten_search_areas_inv areas now d2 hflat
            exact Or.inr ⟨fts, nr, h1, h2, h3, h4⟩
          next hflat =>
            rw [Prod.mk.injEq] at h
            exact absurd h.2 (by simp)
  · intro inner lookup collection hier ul tr g h hok
    simp only [multiple_collections_extension] at h
    split at h
    next tr1 d2 heq =>
      rw [Prod.mk.injEq] at h
      exact absurd h.2 (by simp)
    next tr1 heq =>
      rw [Prod.mk.injEq] at h
      exact absurd h.2 (by simp)
    next tr1 rs heq =>
      split at h
      next =>
        rw [Prod.mk.injEq] at h
        exact absurd h.2 (by simp)
      next =>
        split at h
        next g2 hflat =>
          rw [Prod.mk.injEq] at h
          obtain rfl : g2 = g := by
            have := h.2
            injection this
          refine mcFlattenLoop_inv rs _ g2 hflat (fun p hp => ?_) (by simp)
          rw [mcLoop_results (inner hier) _ tr1 rs heq p hp]
          exact hok hier p.1
        next hflat =>
          rw [Prod.mk.injEq] at h
          exact absurd h.2 (by simp)

/-- C9 witness: the three conjuncts at concrete one-page, one-part and
one-collection runs. -/
theorem c9_result_set_invariants_witness :
    (errCheck c9LimitResult = .err ∨
      ∃ fts, dget c9LimitResult "features" = some (.feats fts) ∧
        dget c9LimitResult "numberReturned" = some (.i (fts.length : Int))) ∧
    (errCheck c9GeomResult = .err ∨
      ∃ fts nr, dget c9GeomResult "features" = some (.feats fts) ∧
        dget c9GeomResult "numberReturned" = some (.i nr) ∧
        nr = (fts.length : Int) ∧ (fids fts).Nodup) ∧
    c9McFlat.numberReturned = (c9McFlat.features.length : Int) :=
  ⟨c9_result_set_invariants.1 (fun _ => c9Page) (some 50) none none none "t0" 5
      c9LimitRun.1 c9LimitResult rfl,
   c9_result_set_invariants.2.1
      (fun _ => [("numberOfRequests", GVal.i 1), ("features", GVal.feats [{ id := 5 }])])
      (.ok (.atom 0)) false "t0" c9GeomRun.1 c9GeomResult rfl,
   c9_result_set_invariants.2.2 (fun _ _ => c9Child) [] ["col1"] false false
      c9McRun.1 c9McFlat rfl
      (fun b c fts nr h1 h2 => by
        have hf : GVal.feats [{ id := 1 }, { id := 2 }] = GVal.feats fts :=
          Option.some.inj h1
        have hn : GVal.i 2 = GVal.i nr := Option.some.inj h2
        obtain rfl : fts = [{ id := 1 }, { id := 2 }] := (GVal.feats.inj hf).symm
        obtain rfl : nr = 2 := (GVal.i.inj hn).symm
        rfl)⟩

end NGD

namespace NGD

/-- C8: the auth decorator invokes the wrapped fetch at most twice; it
attempts a refresh-and-retry exactly when the first invocation returns code
401 (the retry itself happens exactly when the refresh also succeeds); a
second 401 after the refreshed retry is returned without a third invocation
(the response is whatever the second call returned); and a failed refresh
returns the 401 credentials ErrorPayload instead of raising. -/
theorem c8_oauth_refresh_once :
    ∀ (func : Dict → Dict) (headers : Option Dict) (envToken : String)
      (refresh : Except Unit String),
    (oauth2_manager func headers envToken refresh).calls ≤ 2 ∧
    ((oauth2_manager func headers envToken refresh).refreshAttempted = true ↔
      dget (func (authHeaders headers envToken)) "code" = some (.i 401)) ∧
    ((oauth2_manager func headers envToken refresh).calls = 2 ↔
      (dget (func (authHeaders headers envToken)) "code" = some (.i 401) ∧
        ∃ tok, refresh = .ok tok)) ∧
    (dget (func (authHeaders headers envToken)) "code" = some (.i 401) →
      refresh = .error () →
      (oauth2_manager func headers envToken refresh).response = credentialsErrorDict ∧
      dget credentialsErrorDict "code" = some (.i 401) ∧
      (oauth2_manager func headers envToken refresh).calls = 1) ∧
    (∀ tok : String, dget (func (authHeaders headers envToken)) "code" = some (.i 401) →
      refresh = .ok tok →
      (oauth2_manager func headers envToken refresh).response =
        func (dset (authHeaders headers envToken) "Authorization"
          (.s ("Bearer " ++ tok))) ∧
      (oauth2_manager func headers envToken refresh).calls = 2) := by
  intro func headers envToken refresh
  by_cases h401 : dget (func (authHeaders headers envToken)) "code" = some (.i 401)
  · have hcond : ¬ (dget (func (authHeaders headers envToken)) "code" ≠
        some (GVal.i 401)) := by simp [h401]
    cases refresh with
    | error e =>
      obtain rfl : e = () := rfl
      have hrec : oauth2_manager func headers envToken (Except.error ()) =
          { response := credentialsErrorDict, calls := 1, refreshAttempted := true,
            finalToken := envToken } := by
        simp only [oauth2_manager, if_neg hcond]
      rw [hrec]
      refine ⟨by norm_num, ⟨fun _ => h401, fun _ => rfl⟩, ?_, ?_, ?_⟩
      · constructor
        · intro hc
          exact absurd hc (by norm_num)
        · rintro ⟨-, tok, htok⟩
          exact absurd htok (by simp)
      · intro _ _
        exact ⟨rfl, rfl, rfl⟩
      · intro tok _ hok
        exact absurd hok (by simp)
    | ok tok =>
      have hrec : oauth2_manager func headers envToken (Except.ok tok) =
          { response := func (dset (authHeaders headers envToken) "Authorization"
              (.s ("Bearer " ++ tok))),
            calls := 2, refreshAttempted := true, finalToken := tok } := by
        simp only [oauth2_manager, if_neg hcond]
      rw [hrec]
      refine ⟨by norm_num, ⟨fun _ => h401, fun _ => rfl⟩, ?_, ?_, ?_⟩
      · exact ⟨fun _ => ⟨h401, tok, rfl⟩, fun _ => rfl⟩
      · intro _ herr
        exact absurd herr (by simp)
      · intro tok2 _ hok
        obtain rfl : tok = tok2 := by injection hok
        exact ⟨rfl, rfl⟩
  · have hrec : oauth2_manager func headers envToken refresh =
        { response := func (authHeaders headers envToken), calls := 1,
          refreshAttempted := false, finalToken := envToken } := by
      simp only [oauth2_manager, if_pos h401]
    rw [hrec]
    refine ⟨by norm_num, ?_, ?_, ?_, ?_⟩
    · constructor
      · intro hc
        exact absurd hc (by simp)
      · intro hc
        exact absurd hc h401
    · constructor
      · intro hc
        exact absurd hc (by norm_num)
      · rintro ⟨hc, -⟩
        exact absurd hc h401
    · intro hc
      exact absurd hc h401
    · intro tok hc
      exact absurd hc h401

/-- C8 witness: an upstream that answers 401 to every call, with a
successful refresh: exactly two invocations, refresh attempted, and the
second 401 response returned. -/
theorem c8_oauth_refresh_once_witness :
    (oauth2_manager (fun _ => [("code", GVal.i 401)]) none "stale" (.ok "fresh")).calls = 2 ∧
    (oauth2_manager (fun _ => [("code", GVal.i 401)]) none "stale" (.ok "fresh")).response =
      [("code", GVal.i 401)] ∧
    (oauth2_manager (fun _ => [("code", GVal.i 401)]) none "stale" (.ok "fresh")).refreshAttempted
      = true :=
  have h := c8_oauth_refresh_once (fun _ => [("code", GVal.i 401)]) none "stale" (.ok "fresh")
  ⟨(h.2.2.2.2 "fresh" rfl rfl).2, (h.2.2.2.2 "fresh" rfl rfl).1, h.2.1.mpr rfl⟩

end NGD

namespace NGD

theorem gslcLoop_err (lookup : List (String × String)) :
    ∀ (cols : List String) (c : String),
      cols.find? (fun x => (lookup.find? (fun p => p.1 = x)).isNone) = some c →
      gslcLoop lookup cols = .error c := by
  intro cols
  induction cols with
  | nil => intro c h; simp at h
  | cons x rest ih =>
    intro c h
    simp only [List.find?] at h
    rcases hfind : lookup.find? (fun p => p.1 = x) with - | q
    · rw [hfind] at h
      simp at h
      subst h
      rw [gslcLoop, hfind]
      rfl
    · rw [hfind] at h
      simp at h
      rw [gslcLoop, hfind]
      show ((gslcLoop lookup rest).map _) = .error c
      rw [ih c h]
      rfl

theorem apply_latest_collection_leak (lookup : List (String × String))
    (collection : List String) (c : String)
    (h : (collection.filter (fun x => ¬ lastCharIsDigit x)).find?
        (fun x => (lookup.find? (fun p => p.1 = x)).isNone) = some c) :
    apply_latest_collection lookup collection =
      [.i 404, .s (collectionNotFoundDescr c),
       .s "https://api.os.uk/features/ngd/ofa/v1/collections"] ++
        (collection.filter (fun x => lastCharIsDigit x)).map GVal.s := by
  rw [apply_latest_collection]
  rw [get_specific_latest_collections, gslcLoop_err lookup _ c h]
  rfl

/-- C4 (code bug): with useLatestCollection set and an unresolvable base
name, the version-resolver 404 is NOT returned before any fetch.
apply_latest_collection takes .values() of the resolver error dict, so -
universally, for every catalog and every input list whose first unresolvable
unversioned name is c, at any position - the collection list becomes [404,
description-of-c, help] followed by the versioned names; the wrapper then
makes a per-collection fetch with the leaked 404 value and returns the
upstream error from that fetch, not the resolver NotFoundError. -/
theorem c4_not_found_error_destroyed :
    get_specific_latest_collections c4Lookup ["goodbase", "badbase"] = c4NotFound ∧
    apply_latest_collection c4Lookup ["goodbase", "badbase"] =
      [.i 404, .s (collectionNotFoundDescr "badbase"),
       .s "https://api.os.uk/features/ngd/ofa/v1/collections"] ∧
    (∀ (lookup : List (String × String)) (collection : List String) (c : String),
      (collection.filter (fun x => ¬ lastCharIsDigit x)).find?
          (fun x => (lookup.find? (fun p => p.1 = x)).isNone) = some c →
      apply_latest_collection lookup collection =
        [.i 404, .s (collectionNotFoundDescr c),
         .s "https://api.os.uk/features/ngd/ofa/v1/collections"] ++
          (collection.filter (fun x => lastCharIsDigit x)).map GVal.s) ∧
    multiple_collections_extension (fun _ _ => c4UpstreamErr) c4Lookup
        ["goodbase", "badbase"] false true =
      ([GVal.i 404], .ret c4UpstreamErr) ∧
    c4UpstreamErr ≠ c4NotFound :=
  ⟨rfl, rfl, apply_latest_collection_leak, by rfl, by decide⟩

theorem intercalate_go_left (s X : String) :
    ∀ (bs : List String) (y : String),
      String.intercalate.go (X ++ y) s bs = X ++ String.intercalate.go y s bs := by
  intro bs
  induction bs with
  | nil => intro y; rfl
  | cons b bs ih =>
    intro y
    show String.intercalate.go (X ++ y ++ s ++ b) s bs =
      X ++ String.intercalate.go (y ++ s ++ b) s bs
    have hassoc : X ++ y ++ s ++ b = X ++ (y ++ s ++ b) := by
      rw [String.append_assoc, String.append_assoc, String.append_assoc]
    rw [hassoc, ih]

theorem intercalate_go_append (s : String) :
    ∀ (l1 : List String) (acc : String) (l2 : List String),
      String.intercalate.go acc s (l1 ++ l2) =
        String.intercalate.go (String.intercalate.go acc s l1) s l2 := by
  intro l1
  induction l1 with
  | nil => intro acc l2; rfl
  | cons a as ih =>
    intro acc l2
    show String.intercalate.go (acc ++ s ++ a) s (as ++ l2) = _
    exact ih _ _

theorem intercalate_append (s : String) (l1 l2 : List String)
    (h1 : l1 ≠ []) (h2 : l2 ≠ []) :
    String.intercalate s (l1 ++ l2) =
      String.intercalate s l1 ++ s ++ String.intercalate s l2 := by
  rcases l1 with - | ⟨a, as⟩
  · exact absurd rfl h1
  rcases l2 with - | ⟨b, bs⟩
  · exact absurd rfl h2
  show String.intercalate.go a s (as ++ b :: bs) =
    String.intercalate.go a s as ++ s ++ String.intercalate.go b s bs
  rw [intercalate_go_append s as a (b :: bs)]
  show String.intercalate.go (String.intercalate.go a s as ++ s ++ b) s bs = _
  exact intercalate_go_left s (String.intercalate.go a s as ++ s) bs b

theorem flask_join (ps qs : List (String × FPVal)) (h1 : ps ≠ []) (h2 : qs ≠ []) :
    construct_filter_param_flask (ps ++ qs) =
      construct_filter_param_flask ps ++ "and" ++ construct_filter_param_flask qs := by
  simp only [construct_filter_param_flask, List.map_append]
  exact intercalate_append "and" _ _ (by simpa using h1) (by simpa using h2)

/-- C5 (code bug in the Azure variant): the app_flask builder matches the
claim - quotes the string value as (oslandcovertierb='Water'), maps the empty
mapping to "", and joins the predicates of any two non-empty groups with
"and"; the Azure variant returns "" on the empty mapping but raises
TypeError on every non-empty one (isinstance arguments swapped). -/
theorem c5_construct_filter_param :
    construct_filter_param_flask [("oslandcovertierb", .s "Water")] =
      "(oslandcovertierb='Water')" ∧
    construct_filter_param_flask [] = "" ∧
    (∀ (ps qs : List (String × FPVal)), ps ≠ [] → qs ≠ [] →
      construct_filter_param_flask (ps ++ qs) =
        construct_filter_param_flask ps ++ "and" ++ construct_filter_param_flask qs) ∧
    construct_filter_param [] = .ok "" ∧
    (∀ (k : String) (v : FPVal) (rest : List (String × FPVal)),
      construct_filter_param ((k, v) :: rest) =
        .error "TypeError: isinstance() arg 2 must be a type, a tuple of types, or a union") :=
  ⟨rfl, rfl, flask_join, rfl, fun k v rest => rfl⟩

theorem toDigitsCore_succ (fuel n : Nat) (ds : List Char) :
    Nat.toDigitsCore 10 (fuel + 1) n ds =
      if n / 10 = 0 then (n % 10).digitChar :: ds
      else Nat.toDigitsCore 10 fuel (n / 10) ((n % 10).digitChar :: ds) := by
  rw [Nat.toDigitsCore]

-- digit facts
theorem digitChar_isDigit {m : Nat} (h : m < 10) :
    (Nat.digitChar m).isDigit = true := by
  interval_cases m <;> decide

theorem digitChar_val {m : Nat} (h : m < 10) :
    (Nat.digitChar m).toNat - 48 = m := by
  interval_cases m <;> decide

theorem toDigitsCore_digits :
    ∀ (fuel n : Nat) (ds : List Char), (∀ c ∈ ds, c.isDigit = true) →
      ∀ c ∈ Nat.toDigitsCore 10 fuel n ds, c.isDigit = true := by
  intro fuel
  induction fuel with
  | zero => intro n ds hds; simpa [Nat.toDigitsCore] using hds
  | succ fuel ih =>
    intro n ds hds c hc
    simp only [Nat.toDigitsCore] at hc
    by_cases h0 : n / 10 = 0
    · rw [if_pos h0] at hc
      rcases List.mem_cons.1 hc with rfl | hmem
      · exact digitChar_isDigit (Nat.mod_lt _ (by omega))
      · exact hds c hmem
    · rw [if_neg h0] at hc
      refine ih (n / 10) _ ?_ c hc
      intro c' hc'
      rcases List.mem_cons.1 hc' with rfl | hmem
      · exact digitChar_isDigit (Nat.mod_lt _ (by omega))
      · exact hds c' hmem

theorem toDigitsCore_ne_nil :
    ∀ (fuel n : Nat) (ds : List Char), ds ≠ [] →
      Nat.toDigitsCore 10 fuel n ds ≠ [] := by
  intro fuel
  induction fuel with
  | zero => intro n ds hds; simpa [Nat.toDigitsCore] using hds
  | succ fuel ih =>
    intro n ds hds
    simp only [Nat.toDigitsCore]
    by_cases h0 : n / 10 = 0
    · rw [if_pos h0]; simp
    · rw [if_neg h0]; exact ih _ _ (by simp)

theorem toDigits_ne_nil (n : Nat) : Nat.toDigits 10 n ≠ [] := by
  show Nat.toDigitsCore 10 (n + 1) n [] ≠ []
  simp only [Nat.toDigitsCore]
  by_cases h0 : n / 10 = 0
  · rw [if_pos h0]; simp
  · rw [if_neg h0]; exact toDigitsCore_ne_nil _ _ _ (by simp)

theorem pushDecimal_lt (a : Nat) {n : Nat} (h : n < 10) :
    pushDecimal a n = a * 10 + n := by
  rw [pushDecimal, if_pos h]

theorem pushDecimal_ge (a : Nat) {n : Nat} (h : ¬ n < 10) :
    pushDecimal a n = pushDecimal a (n / 10) * 10 + n % 10 := by
  rw [pushDecimal, if_neg h]

theorem pushDecimal_zero : ∀ n : Nat, pushDecimal 0 n = n := by
  intro n
  induction n using Nat.strong_induction_on with
  | _ n ih =>
    rw [pushDecimal]
    by_cases h : n < 10
    · rw [if_pos h]; omega
    · rw [if_neg h, ih (n / 10) (Nat.div_lt_self (by omega) (by omega))]
      omega

theorem foldl_toDigitsCore :
    ∀ (fuel n : Nat) (ds : List Char) (a : Nat), n < 10 ^ (fuel + 1) →
      (Nat.toDigitsCore 10 (fuel + 1) n ds).foldl
          (fun acc c => acc * 10 + (c.toNat - 48)) a
        = ds.foldl (fun acc c => acc * 10 + (c.toNat - 48)) (pushDecimal a n) := by
  intro fuel
  induction fuel with
  | zero =>
    intro n ds a hn
    have h0 : n / 10 = 0 := by omega
    rw [toDigitsCore_succ, if_pos h0, List.foldl_cons]
    rw [digitChar_val (Nat.mod_lt _ (by omega)),
      pushDecimal_lt a (by omega : n < 10)]
    congr 1
    omega
  | succ fuel ih =>
    intro n ds a hn
    rw [toDigitsCore_succ]
    by_cases h0 : n / 10 = 0
    · rw [if_pos h0, List.foldl_cons,
        digitChar_val (Nat.mod_lt _ (by omega)),
        pushDecimal_lt a (by omega : n < 10)]
      congr 1
      omega
    · rw [if_neg h0]
      have hdiv : n / 10 < 10 ^ (fuel + 1) := by
        rw [pow_succ] at hn
        exact Nat.div_lt_of_lt_mul (by omega)
      rw [ih (n / 10) _ a hdiv, List.foldl_cons,
        digitChar_val (Nat.mod_lt _ (by omega)),
        pushDecimal_ge a (by omega : ¬ n < 10)]

theorem parseNat?_repr (n : Nat) : parseNat? (Nat.repr n).data = some n := by
  have hdata : (Nat.repr n).data = Nat.toDigits 10 n := rfl
  rw [hdata]
  have hne : Nat.toDigits 10 n ≠ [] := toDigits_ne_nil n
  have hdig : ∀ c ∈ Nat.toDigits 10 n, c.isDigit = true :=
    toDigitsCore_digits (n + 1) n [] (by simp)
  rw [parseNat?, if_pos ⟨hne, List.all_eq_true.2 hdig⟩]
  have hlt : n < 10 ^ (n + 1) :=
    lt_of_lt_of_le (Nat.lt_pow_self (by omega) n)
      (Nat.pow_le_pow_right (by omega) (Nat.le_succ n))
  have := foldl_toDigitsCore n n [] 0 hlt
  simp only [List.foldl_nil] at this
  rw [show Nat.toDigits 10 n = Nat.toDigitsCore 10 (n + 1) n [] from rfl, this,
    pushDecimal_zero]

theorem repr_no_hyphen (n : Nat) : ∀ c ∈ (Nat.repr n).data, c ≠ '-' := by
  intro c hc hcontra
  have hdig : c.isDigit = true :=
    toDigitsCore_digits (n + 1) n [] (by simp) c hc
  rw [hcontra] at hdig
  simp [Char.isDigit] at hdig

theorem splitLastHyphen_none :
    ∀ cs : List Char, (∀ c ∈ cs, c ≠ '-') → splitLastHyphen cs = none := by
  intro cs
  induction cs with
  | nil => intro; rfl
  | cons c cs ih =>
    intro h
    rw [splitLastHyphen, ih (fun c' hc' => h c' (List.mem_cons_of_mem _ hc'))]
    exact if_neg (h c (List.mem_cons_self _ _))

theorem splitLastHyphen_append :
    ∀ (pre suf : List Char), (∀ c ∈ suf, c ≠ '-') →
      splitLastHyphen (pre ++ '-' :: suf) = some (pre, suf) := by
  intro pre suf hsuf
  induction pre with
  | nil =>
    rw [List.nil_append, splitLastHyphen, splitLastHyphen_none suf hsuf]
    simp
  | cons c pre ih =>
    rw [List.cons_append, splitLastHyphen, ih]

theorem renderId_data (p : String × Nat) :
    (renderId p).data = p.1.data ++ '-' :: (Nat.repr p.2).data := by
  show (p.1 ++ "-" ++ toString p.2).data = _
  rw [String.data_append, String.data_append, List.append_assoc]
  rfl

theorem string_mk_data (s : String) : String.mk s.data = s := rfl

theorem azureCollectionsDict_rendered :
    ∀ (cat : List (String × Nat)) (acc : List (String × List Nat)),
      azureCollectionsDict (cat.map renderId) acc = some (groupFold cat acc) := by
  intro cat
  induction cat with
  | nil => intro acc; rfl
  | cons p cat ih =>
    intro acc
    rw [List.map_cons, azureCollectionsDict, renderId_data,
      splitLastHyphen_append _ _ (repr_no_hyphen p.2)]
    dsimp only
    rw [parseNat?_repr]
    exact ih _

-- groupUpdate characterizations
theorem find?_fst_isSome (acc : List (String × List Nat)) (b : String) :
    (acc.find? (fun p => p.1 = b)).isSome = true ↔ b ∈ acc.map Prod.fst := by
  rw [List.find?_isSome]
  constructor
  · rintro ⟨x, hx, hpx⟩
    simp only [decide_eq_true_eq] at hpx
    exact List.mem_map.2 ⟨x, hx, hpx⟩
  · rintro hb
    rcases List.mem_map.1 hb with ⟨x, hx, hbx⟩
    exact ⟨x, hx, by simp [hbx]⟩

theorem groupUpdate_keys (acc : List (String × List Nat)) (b : String) (v : Nat) :
    (groupUpdate acc b v).map Prod.fst =
      if b ∈ acc.map Prod.fst then acc.map Prod.fst
      else acc.map Prod.fst ++ [b] := by
  rw [groupUpdate]
  by_cases hmem : b ∈ acc.map Prod.fst
  · rw [if_pos ((find?_fst_isSome acc b).2 hmem), if_pos hmem, List.map_map]
    refine List.map_congr_left ?_
    intro p _
    by_cases hp : p.1 = b <;> simp [hp]
  · have hs : ¬ (acc.find? (fun p => p.1 = b)).isSome = true :=
      fun hs => hmem ((find?_fst_isSome acc b).1 hs)
    rw [if_neg hs, if_neg hmem, List.map_append]
    rfl

theorem groupUpdate_find?_self (acc : List (String × List Nat)) (b : String)
    (v : Nat) :
    (groupUpdate acc b v).find? (fun p => p.1 = b) =
      match acc.find? (fun p => p.1 = b) with
      | some q => some (q.1, q.2 ++ [v])
      | none => some (b, [v]) := by
  rw [groupUpdate]
  rcases hfind : acc.find? (fun p => p.1 = b) with - | q
  · rw [if_neg (by simp [hfind])]
    rw [List.find?_append, hfind, Option.none_or]
    simp
  · rw [if_pos (by simp [hfind])]
    rw [List.find?_map]
    have hpred : (fun p : String × List Nat => decide (p.1 = b)) ∘
        (fun p : String × List Nat => if p.1 = b then (p.1, p.2 ++ [v]) else p) =
        fun p : String × List Nat => decide (p.1 = b) := by
      funext p
      by_cases hp : p.1 = b <;> simp [hp]
    rw [hpred, hfind]
    have hq : q.1 = b := by simpa using List.find?_some hfind
    simp [hq]

theorem groupUpdate_find?_ne (acc : List (String × List Nat)) {b b' : String}
    (v : Nat) (hne : b' ≠ b) :
    (groupUpdate acc b v).find? (fun p => p.1 = b') =
      acc.find? (fun p => p.1 = b') := by
  rw [groupUpdate]
  by_cases hs : (acc.find? (fun p => p.1 = b)).isSome = true
  · rw [if_pos hs, List.find?_map]
    have hpred : (fun p : String × List Nat => decide (p.1 = b')) ∘
        (fun p : String × List Nat => if p.1 = b then (p.1, p.2 ++ [v]) else p) =
        fun p : String × List Nat => decide (p.1 = b') := by
      funext p
      by_cases hp : p.1 = b <;> simp [hp]
    rw [hpred]
    rcases hfind : acc.find? (fun p => p.1 = b') with - | q
    · rw [hfind]
      rfl
    · rw [hfind]
      have hq : q.1 = b' := by simpa using List.find?_some hfind
      have hqb : q.1 ≠ b := by rw [hq]; exact hne
      simp [hqb]
  · rw [if_neg hs, List.find?_append]
    have hsing : List.find? (fun p : String × List Nat => p.1 = b') [(b, [v])] =
        none := by
      have hbb : (b : String) ≠ b' := Ne.symm hne
      simp [List.find?_cons, hbb]
    rw [hsing, Option.or_none]

theorem groupFold_keys_mem :
    ∀ (cat : List (String × Nat)) (acc : List (String × List Nat)) (b : String),
      b ∈ (groupFold cat acc).map Prod.fst ↔
        b ∈ acc.map Prod.fst ∨ b ∈ cat.map Prod.fst := by
  intro cat
  induction cat with
  | nil => intro acc b; simp [groupFold]
  | cons p cat ih =>
    intro acc b
    show b ∈ (groupFold cat (groupUpdate acc p.1 p.2)).map Prod.fst ↔ _
    rw [ih, groupUpdate_keys]
    by_cases hp : p.1 ∈ acc.map Prod.fst
    · rw [if_pos hp]
      simp only [List.map_cons, List.mem_cons]
      constructor
      · rintro (h | h)
        · exact Or.inl h
        · exact Or.inr (Or.inr h)
      · rintro (h | rfl | h)
        · exact Or.inl h
        · exact Or.inl hp
        · exact Or.inr h
    · rw [if_neg hp]
      simp only [List.mem_append, List.mem_singleton, List.map_cons, List.mem_cons]
      tauto

theorem groupFold_keys_nodup :
    ∀ (cat : List (String × Nat)) (acc : List (String × List Nat)),
      (acc.map Prod.fst).Nodup → ((groupFold cat acc).map Prod.fst).Nodup := by
  intro cat
  induction cat with
  | nil => intro acc h; exact h
  | cons p cat ih =>
    intro acc hacc
    show ((groupFold cat (groupUpdate acc p.1 p.2)).map Prod.fst).Nodup
    refine ih _ ?_
    rw [groupUpdate_keys]
    by_cases hp : p.1 ∈ acc.map Prod.fst
    · rw [if_pos hp]; exact hacc
    · rw [if_neg hp]
      rw [List.nodup_append]
      exact ⟨hacc, List.nodup_singleton _,
        fun a ha hb => hp (by rwa [List.mem_singleton.1 hb] at ha)⟩

theorem versionsOf_cons_self (b : String) (v : Nat) (cat : List (String × Nat)) :
    versionsOf ((b, v) :: cat) b = v :: versionsOf cat b := by
  simp [versionsOf]

theorem versionsOf_cons_ne {b pb : String} (hne : b ≠ pb) (pv : Nat)
    (cat : List (String × Nat)) :
    versionsOf ((pb, pv) :: cat) b = versionsOf cat b := by
  simp [versionsOf, Ne.symm hne]

theorem groupFold_find? :
    ∀ (cat : List (String × Nat)) (acc : List (String × List Nat)) (b : String),
      (groupFold cat acc).find? (fun p => p.1 = b) =
        match acc.find? (fun p => p.1 = b) with
        | some q => some (q.1, q.2 ++ versionsOf cat b)
        | none =>
          if b ∈ cat.map Prod.fst then some (b, versionsOf cat b) else none := by
  intro cat
  induction cat with
  | nil =>
    intro acc b
    show acc.find? (fun p => p.1 = b) = _
    rcases hfind : acc.find? (fun p => p.1 = b) with - | q
    · rw [hfind]
      simp [versionsOf]
    · rw [hfind]
      simp [versionsOf]
  | cons p cat ih =>
    intro acc b
    obtain ⟨pb, pv⟩ := p
    show (groupFold cat (groupUpdate acc pb pv)).find? (fun p => p.1 = b) = _
    rw [ih]
    by_cases hb : b = pb
    · subst hb
      rw [groupUpdate_find?_self, versionsOf_cons_self]
      rcases hfind : acc.find? (fun p => p.1 = b) with - | q
      · rw [hfind]
        simp
      · rw [hfind]
        simp
    · rw [groupUpdate_find?_ne _ _ hb, versionsOf_cons_ne hb]
      rcases hfind : acc.find? (fun p => p.1 = b) with - | q
      · rw [hfind]
        have hmemiff : (b ∈ ((pb, pv) :: cat).map Prod.fst) ↔
            (b ∈ cat.map Prod.fst) := by simp [hb]
        simp only [hmemiff]
      · rw [hfind]

-- foldl max facts
theorem foldl_max_le :
    ∀ (l : List Nat) (a : Nat), a ≤ l.foldl max a ∧ ∀ v ∈ l, v ≤ l.foldl max a := by
  intro l
  induction l with
  | nil => intro a; exact ⟨le_refl a, by simp⟩
  | cons x l ih =>
    intro a
    rw [List.foldl_cons]
    refine ⟨le_trans (le_max_left a x) (ih (max a x)).1, ?_⟩
    intro v hv
    rcases List.mem_cons.1 hv with rfl | hmem
    · exact le_trans (le_max_right a v) (ih (max a v)).1
    · exact (ih (max a x)).2 v hmem

theorem foldl_max_mem :
    ∀ (l : List Nat) (a : Nat), l.foldl max a = a ∨ l.foldl max a ∈ l := by
  intro l
  induction l with
  | nil => intro a; exact Or.inl rfl
  | cons x l ih =>
    intro a
    rw [List.foldl_cons]
    rcases ih (max a x) with h | h
    · rcases max_cases a x with ⟨hm, -⟩ | ⟨hm, -⟩
      · exact Or.inl (by rw [h, hm])
      · exact Or.inr (by rw [h, hm]; exact List.mem_cons_self _ _)
    · exact Or.inr (List.mem_cons_of_mem _ h)

theorem foldl_max_zero_mem {l : List Nat} (hne : l ≠ []) :
    l.foldl max 0 ∈ l := by
  rcases foldl_max_mem l 0 with h | h
  · rcases l with - | ⟨x, l⟩
    · exact absurd rfl hne
    · have hx : x ≤ (x :: l).foldl max 0 := (foldl_max_le (x :: l) 0).2 x (by simp)
      rw [h] at hx ⊢
      have : x = 0 := Nat.le_zero.1 hx
      rw [← this]
      exact List.mem_cons_self _ _
  · exact h

/-- C7 universal part, Azure: on every rendered structured catalog the
resolver succeeds, produces exactly one entry per distinct base, and the
entry's version list maximum is realized. -/
theorem azure_resolver_universal :
    ∀ cat : List (String × Nat),
      ∃ out, get_latest_collection_versions (cat.map renderId) = some out ∧
        (out.map Prod.fst).Nodup ∧
        (∀ b, b ∈ out.map Prod.fst ↔ b ∈ cat.map Prod.fst) ∧
        (∀ b, b ∈ cat.map Prod.fst →
          out.find? (fun p => p.1 = b) =
            some (b, b ++ "-" ++ toString ((versionsOf cat b).foldl max 0)) ∧
          (versionsOf cat b).foldl max 0 ∈ versionsOf cat b ∧
          ∀ v ∈ versionsOf cat b, v ≤ (versionsOf cat b).foldl max 0) := by
  intro cat
  rw [get_latest_collection_versions, azureCollectionsDict_rendered cat [],
    Option.map_some']
  refine ⟨_, rfl, ?_, ?_, ?_⟩
  · rw [List.map_map]
    have : (Prod.fst ∘ fun p : String × List Nat =>
        (p.1, p.1 ++ "-" ++ toString (p.2.foldl max 0))) = Prod.fst := by
      funext p; rfl
    rw [this]
    exact groupFold_keys_nodup cat [] (by simp)
  · intro b
    rw [List.map_map]
    have : (Prod.fst ∘ fun p : String × List Nat =>
        (p.1, p.1 ++ "-" ++ toString (p.2.foldl max 0))) = Prod.fst := by
      funext p; rfl
    rw [this, groupFold_keys_mem cat [] b]
    simp
  · intro b hb
    have hne : versionsOf cat b ≠ [] := by
      rcases List.mem_map.1 hb with ⟨p, hp, hpb⟩
      have : p.2 ∈ versionsOf cat b := by
        refine List.mem_map.2 ⟨p, ?_, rfl⟩
        rw [List.mem_filter]
        exact ⟨hp, by simp [hpb]⟩
      exact fun hnil => by simp [hnil] at this
    refine ⟨?_, foldl_max_zero_mem hne, (foldl_max_le _ 0).2⟩
    rw [List.find?_map]
    have hpred : (fun p : String × String => decide (p.1 = b)) ∘
        (fun p : String × List Nat =>
          (p.1, p.1 ++ "-" ++ toString (p.2.foldl max 0))) =
        fun p : String × List Nat => decide (p.1 = b) := by
      funext p; rfl
    rw [hpred, groupFold_find? cat [] b]
    simp only [List.find?_nil]
    rw [if_pos hb]
    rfl

/-- C7 (code bug in the app_flask variant): the Azure resolver satisfies the
claim on every rendered base-version catalog - the call succeeds, the output
holds exactly one entry per distinct base name, and each base maps to
base-maxversion where the maximum is realized by one of that base's catalog
versions - and in particular on the claims catalog; the app_flask variant
groups by startswith and so maps base "a" of the catalog ["a-1", "ab-2"] to
"ab-2" - an identifier of a different base - instead of "a-1". -/
theorem c7_version_resolver :
    get_latest_collection_versions
        ["bld-fts-buildingline-1", "bld-fts-buildingline-2", "trn-ntwk-street-1"] =
      some [("bld-fts-buildingline", "bld-fts-buildingline-2"),
            ("trn-ntwk-street", "trn-ntwk-street-1")] ∧
    get_latest_collection_versions_flask
        ["bld-fts-buildingline-1", "bld-fts-buildingline-2", "trn-ntwk-street-1"] =
      some [("bld-fts-buildingline", "bld-fts-buildingline-2"),
            ("trn-ntwk-street", "trn-ntwk-street-1")] ∧
    get_latest_collection_versions ["a-1", "ab-2"] =
      some [("a", "a-1"), ("ab", "ab-2")] ∧
    get_latest_collection_versions_flask ["a-1", "ab-2"] =
      some [("a", "ab-2"), ("ab", "ab-2")] ∧
    (∀ cat : List (String × Nat),
      ∃ out, get_latest_collection_versions (cat.map renderId) = some out ∧
        (out.map Prod.fst).Nodup ∧
        (∀ b, b ∈ out.map Prod.fst ↔ b ∈ cat.map Prod.fst) ∧
        (∀ b, b ∈ cat.map Prod.fst →
          out.find? (fun p => p.1 = b) =
            some (b, b ++ "-" ++ toString ((versionsOf cat b).foldl max 0)) ∧
          (versionsOf cat b).foldl max 0 ∈ versionsOf cat b ∧
          ∀ v ∈ versionsOf cat b, v ≤ (versionsOf cat b).foldl max 0)) :=
  ⟨by rfl, by rfl, by rfl, by rfl, azure_resolver_universal⟩

end NGD

namespace NGD

theorem Store.read_alloc {σ : Store} {d : Dict} {r : Nat} (hr : r < σ.length) :
    (σ.alloc d).1.read r = σ.read r := by
  simp only [Store.alloc, Store.read]
  rw [List.getD_eq_getElem?_getD, List.getD_eq_getElem?_getD,
    List.getElem?_append, if_pos hr]

theorem Store.read_write_ne {σ : Store} {r1 : Nat} {d : Dict} {r : Nat}
    (h : r ≠ r1) :
    (σ.write r1 d).read r = σ.read r := by
  simp only [Store.write, Store.read]
  rw [List.getD_eq_getElem?_getD, List.getD_eq_getElem?_getD,
    List.getElem?_set_ne (fun hc => h hc.symm)]

/-- The pagination effect loop only ever writes the private copy. -/
theorem limitLoopEffects_frame (inner : Store → Nat → Store × Bool)
    (hf : ∀ (σ : Store) (q r : Nat), r ≠ q → ((inner σ q).1).read r = σ.read r)
    (batch : Option (Int × Int)) :
    ∀ (fuel : Nat) (rc off : Int) (σ : Store) (qp1 r : Nat), r ≠ qp1 →
    (limitLoopEffects inner batch fuel rc off σ qp1).read r = σ.read r := by
  intro fuel
  induction fuel with
  | zero =>
    intro rc off σ qp1 r hr
    simp [limitLoopEffects]
  | succ fuel ih =>
    intro rc off σ qp1 r hr
    simp only [limitLoopEffects]
    split
    · rw [ih _ _ _ _ _ hr, hf _ _ _ hr, Store.read_write_ne hr]
    · rw [hf _ _ _ hr, Store.read_write_ne hr]

end NGD

namespace NGD

/-- C10: across the Single-Request Fetcher, the Pagination Coordinator and
the Auth Decorator, every caller-supplied mapping (query_params,
filter_params, headers) reads back unchanged afterwards: each operation
copies the mapping into a fresh object and mutates only the copies.  The
wrapped callable of a coordinator may mutate the dict object handed to it
(the copy) but, as in the source, no other pre-existing object. -/
theorem c10_caller_dicts_unchanged :
    (∀ (σ : Store) (qpRef fpRef hRef : Nat) (wkt : Option String) (r : Nat),
      r < σ.length →
      ((ngd_items_request_effects σ qpRef fpRef hRef wkt).1).read r = σ.read r) ∧
    (∀ (inner : Store → Nat → Store × Bool),
      (∀ (σ : Store) (q r : Nat), r ≠ q → ((inner σ q).1).read r = σ.read r) →
      ∀ (σ : Store) (qpRef : Nat) (batch : Option (Int × Int)) (fuel : Nat) (r : Nat),
      r < σ.length →
      (limit_extension_effects inner σ qpRef batch fuel).read r = σ.read r) ∧
    (∀ (inner : Store → Nat → Store × Bool),
      (∀ (σ : Store) (q r : Nat), r ≠ q → ((inner σ q).1).read r = σ.read r) →
      ∀ (σ : Store) (hRef : Nat) (envToken : String) (refresh : Except Unit String)
        (r : Nat), r < σ.length →
      (oauth2_manager_effects inner σ hRef envToken refresh).read r = σ.read r) := by
  refine ⟨?_, ?_, ?_⟩
  · intro σ qpRef fpRef hRef wkt r hr
    simp only [ngd_items_request_effects]
    have hr1 : r < ((σ.alloc (σ.read qpRef)).1).length := by
      simp [Store.alloc]
      omega
    have hr2 : r <
        (((σ.alloc (σ.read qpRef)).1).alloc
          (((σ.alloc (σ.read qpRef)).1).read fpRef)).1.length := by
      simp [Store.alloc]
      omega
    have hqp : r ≠ (σ.alloc (σ.read qpRef)).2 := by
      simp only [Store.alloc]
      omega
    have hh : r ≠
        ((((σ.alloc (σ.read qpRef)).1).alloc
            (((σ.alloc (σ.read qpRef)).1).read fpRef)).1.alloc
          ((((σ.alloc (σ.read qpRef)).1).alloc
            (((σ.alloc (σ.read qpRef)).1).read fpRef)).1.read hRef)).2 := by
      simp only [Store.alloc, List.length_append, List.length_cons, List.length_nil]
      omega
    split
    · rw [Store.read_alloc, Store.read_alloc hr1, Store.read_alloc hr]
      exact hr2
    · split
      · rw [Store.read_write_ne hh, Store.read_write_ne hqp,
          Store.read_write_ne hqp, Store.read_alloc, Store.read_alloc hr1,
          Store.read_alloc hr]
        exact hr2
      · rw [Store.read_write_ne hh, Store.read_write_ne hqp,
          Store.read_alloc, Store.read_alloc hr1, Store.read_alloc hr]
        exact hr2
  · intro inner hf σ qpRef batch fuel r hr
    simp only [limit_extension_effects]
    have hqp : r ≠ (σ.alloc (σ.read qpRef)).2 := by
      simp only [Store.alloc]
      omega
    rw [limitLoopEffects_frame inner hf batch fuel 0 0 _ _ r hqp,
      Store.read_alloc hr]
  · intro inner hf σ hRef envToken refresh r hr
    simp only [oauth2_manager_effects]
    have hh : r ≠ (σ.alloc (σ.read hRef)).2 := by
      simp only [Store.alloc]
      omega
    split
    · rw [hf _ _ _ hh, Store.read_write_ne hh, Store.read_alloc hr]
    · split
      · rw [hf _ _ _ hh, Store.read_write_ne hh, Store.read_alloc hr]
      · rw [hf _ _ _ hh, Store.read_write_ne hh, hf _ _ _ hh,
          Store.read_write_ne hh, Store.read_alloc hr]

/-- C10 witness: a concrete three-dict store with an inner callable that
mutates the dict it is given; the caller dicts read back unchanged. -/
theorem c10_caller_dicts_unchanged_witness :
    ((ngd_items_request_effects
        [[("bbox", GVal.s "0,0,1,1")], [("key", GVal.s "v")], [("host", GVal.s "h")]]
        0 1 2 (some "POINT(0 0)")).1).read 0 = [("bbox", GVal.s "0,0,1,1")] ∧
    (limit_extension_effects
        (fun σ q => (σ.write q [], true))
        [[("bbox", GVal.s "0,0,1,1")], [("key", GVal.s "v")], [("host", GVal.s "h")]]
        0 (some (2, 50)) 3).read 0 = [("bbox", GVal.s "0,0,1,1")] ∧
    (oauth2_manager_effects
        (fun σ q => (σ.write q [], true))
        [[("bbox", GVal.s "0,0,1,1")], [("key", GVal.s "v")], [("host", GVal.s "h")]]
        2 "tok0" (.ok "tok1")).read 2 = [("host", GVal.s "h")] := by
  have hf : ∀ (σ : Store) (q r : Nat), r ≠ q →
      (((fun (σ : Store) (q : Nat) => (σ.write q ([] : Dict), true)) σ q).1).read r =
        σ.read r := by
    intro σ q r hrq
    exact Store.read_write_ne hrq
  refine ⟨?_, ?_, ?_⟩
  · rw [c10_caller_dicts_unchanged.1
      [[("bbox", GVal.s "0,0,1,1")], [("key", GVal.s "v")], [("host", GVal.s "h")]]
      0 1 2 (some "POINT(0 0)") 0 (by decide)]
    rfl
  · rw [c10_caller_dicts_unchanged.2.1 (fun σ q => (σ.write q [], true)) hf
      [[("bbox", GVal.s "0,0,1,1")], [("key", GVal.s "v")], [("host", GVal.s "h")]]
      0 (some (2, 50)) 3 0 (by decide)]
    rfl
  · rw [c10_caller_dicts_unchanged.2.2 (fun σ q => (σ.write q [], true)) hf
      [[("bbox", GVal.s "0,0,1,1")], [("key", GVal.s "v")], [("host", GVal.s "h")]]
      2 "tok0" (.ok "tok1") 2 (by decide)]
    rfl

end NGD
